import Mathlib

/-
Verification of the physics and collision kernel of a 2D toroidal N-body
arcade simulation (Barnes-Hut quadtree gravity, leapfrog integrator,
collision detection/response).

Shallow embedding conventions:
* float arithmetic is modelled by exact rational arithmetic (ℚ);
* `std::sqrt`, `std::pow(x, 1.5f)`, `std::cos`/`std::sin` of pseudo-random
  angles, `std::log`, and `rand()` draws are modelled by abstract oracle
  functions passed as parameters (theorems either hold for every oracle or
  carry explicit hypotheses pinning the oracle at the inputs where it is
  used; witnesses instantiate them with exact rational functions at points
  where the IEEE operations are exact);
* the unbounded loops/recursions of the C++ (`wrapPosition`'s while loops,
  `QuadTreeNode::insert`) are run on explicit fuel; sufficiency of the fuel
  is proved where the source terminates.
-/

set_option maxHeartbeats 1600000

namespace NBody

/-- 2D vector (`Vec2`, vec2.h) as a pair of rationals; `+`, `-` and `0` come
from the product instances and are componentwise as in the source. -/
abbrev Vec2 : Type := ℚ × ℚ

/-- Scalar multiplication `Vec2::operator*(float)`. -/
def vmul (v : Vec2) (s : ℚ) : Vec2 := (v.1 * s, v.2 * s)

/-- Scalar division `Vec2::operator/(float)`. -/
def vdiv (v : Vec2) (s : ℚ) : Vec2 := (v.1 / s, v.2 / s)

/-- Dot product `Vec2::dot`. -/
def dot (v w : Vec2) : ℚ := v.1 * w.1 + v.2 * w.2

/-- Squared magnitude `Vec2::lengthSquared`. -/
def lengthSq (v : Vec2) : ℚ := v.1 * v.1 + v.2 * v.2

/-- Exact rational square-root extraction: used to instantiate the abstract
square-root oracle in witnesses, at arguments that are perfect squares
(where IEEE `std::sqrt` is exact as well). -/
def ratSqrt (q : ℚ) : ℚ := (Nat.sqrt q.num.toNat : ℚ) / (Nat.sqrt q.den : ℚ)

/-- The rational square-root extraction is nonnegative (as `std::sqrt` is on
nonnegative input). -/
theorem ratSqrt_nonneg (q : ℚ) : 0 ≤ ratSqrt q := by
  unfold ratSqrt; positivity

/-- Minimum-image displacement for the periodic domain (`minimumImage`,
quadtree.h). The two `if`s per component are sequential: the second tests
the value updated by the first. -/
def minimumImage (dr : Vec2) (W H : ℚ) : Vec2 :=
  let x1 := if dr.1 > W * (1/2) then dr.1 - W else dr.1
  let x2 := if x1 < -(W * (1/2)) then x1 + W else x1
  let y1 := if dr.2 > H * (1/2) then dr.2 - H else dr.2
  let y2 := if y1 < -(H * (1/2)) then y1 + H else y1
  (x2, y2)

/-- The loop `while (pos.x < 0) pos.x += worldWidth;` of `wrapPosition`,
on explicit fuel (one unit per iteration). -/
def liftGo : ℕ → ℚ → ℚ → ℚ
  | 0, x, _ => x
  | n + 1, x, w => if x < 0 then liftGo n (x + w) w else x

/-- The loop `while (pos.x >= worldWidth) pos.x -= worldWidth;` of
`wrapPosition`, on explicit fuel. -/
def dropGo : ℕ → ℚ → ℚ → ℚ
  | 0, x, _ => x
  | n + 1, x, w => if w ≤ x then dropGo n (x - w) w else x

/-- Number of iterations the first `wrapPosition` loop makes when `0 < w`. -/
def liftFuel (x w : ℚ) : ℕ := (Int.toNat ⌈-x / w⌉)

/-- Number of iterations the second `wrapPosition` loop makes when `0 < w`. -/
def dropFuel (x w : ℚ) : ℕ := (Int.toNat ⌊x / w⌋)

/-- Both `wrapPosition` loops on one coordinate.  For `0 < w` the fuel is
exactly the number of iterations the C++ loops make; for `w ≤ 0` the C++
loops diverge on the inputs where they would run at all, and this function
returns after the fuel is spent. -/
def wrapCoord (x w : ℚ) : ℚ :=
  let x1 := liftGo (liftFuel x w) x w
  dropGo (dropFuel x1 w) x1 w

/-- Position wrap into the primary cell (`wrapPosition`, quadtree.h). -/
def wrapPosition (pos : Vec2) (W H : ℚ) : Vec2 :=
  (wrapCoord pos.1 W, wrapCoord pos.2 H)

theorem liftGo_nonneg (w : ℚ) (hw : 0 < w) :
    ∀ (f : ℕ) (x : ℚ), 0 ≤ x + (f : ℚ) * w → 0 ≤ liftGo f x w := by
  intro f
  induction f with
  | zero => intro x hx; simpa [liftGo] using hx
  | succ n ih =>
    intro x hx
    by_cases hneg : x < 0
    · have : 0 ≤ (x + w) + (n : ℚ) * w := by push_cast at hx ⊢; linarith
      simpa [liftGo, hneg] using ih (x + w) this
    · simpa [liftGo, hneg] using le_of_not_lt hneg

theorem liftFuel_spec (x w : ℚ) (hw : 0 < w) :
    0 ≤ x + (liftFuel x w : ℚ) * w := by
  rcases le_or_lt 0 x with hx | hx
  · have : 0 ≤ (liftFuel x w : ℚ) * w := by positivity
    linarith
  · have hpos : (0 : ℚ) < -x / w := div_pos (by linarith) hw
    have hceil : (0 : ℤ) ≤ ⌈-x / w⌉ := Int.ceil_nonneg hpos.le
    have hcast : ((liftFuel x w : ℕ) : ℚ) = ((⌈-x / w⌉ : ℤ) : ℚ) := by
      unfold liftFuel
      exact_mod_cast Int.toNat_of_nonneg hceil
    have hle : -x / w ≤ ((⌈-x / w⌉ : ℤ) : ℚ) := Int.le_ceil _
    have hmul := mul_le_mul_of_nonneg_right hle hw.le
    rw [div_mul_cancel₀ _ (ne_of_gt hw)] at hmul
    rw [hcast]
    linarith

theorem dropGo_lt (w : ℚ) (hw : 0 < w) :
    ∀ (f : ℕ) (x : ℚ), x - (f : ℚ) * w < w → dropGo f x w < w := by
  intro f
  induction f with
  | zero => intro x hx; simpa [dropGo] using hx
  | succ n ih =>
    intro x hx
    by_cases hge : w ≤ x
    · have : (x - w) - (n : ℚ) * w < w := by push_cast at hx ⊢; linarith
      simpa [dropGo, hge] using ih (x - w) this
    · simpa [dropGo, hge] using lt_of_not_le hge

theorem dropGo_nonneg (w : ℚ) (hw : 0 < w) :
    ∀ (f : ℕ) (x : ℚ), 0 ≤ x → 0 ≤ dropGo f x w := by
  intro f
  induction f with
  | zero => intro x hx; simpa [dropGo] using hx
  | succ n ih =>
    intro x hx
    by_cases hge : w ≤ x
    · have : (0 : ℚ) ≤ x - w := by linarith
      simpa [dropGo, hge] using ih (x - w) this
    · simpa [dropGo, hge] using hx

theorem dropFuel_spec (x w : ℚ) (hw : 0 < w) :
    x - (dropFuel x w : ℚ) * w < w := by
  rcases le_or_lt 0 ⌊x / w⌋ with hfl | hfl
  · have hcast : ((dropFuel x w : ℕ) : ℚ) = ((⌊x / w⌋ : ℤ) : ℚ) := by
      unfold dropFuel
      exact_mod_cast Int.toNat_of_nonneg hfl
    have hlt : x / w < ((⌊x / w⌋ : ℤ) : ℚ) + 1 := Int.lt_floor_add_one _
    have hmul := mul_lt_mul_of_pos_right hlt hw
    rw [add_mul, one_mul, div_mul_cancel₀ _ (ne_of_gt hw)] at hmul
    rw [hcast]
    linarith
  · have hneg : x / w < 0 := by
      by_contra hcon
      exact absurd (Int.floor_nonneg.mpr (le_of_not_lt hcon)) (not_le.mpr hfl)
    have hx : x < 0 := by
      by_contra hcon
      have hq : 0 ≤ x / w := div_nonneg (le_of_not_lt hcon) hw.le
      exact absurd hq (not_le.mpr hneg)
    have hfz : dropFuel x w = 0 := by
      unfold dropFuel
      exact Int.toNat_of_nonpos hfl.le
    rw [hfz]
    push_cast
    linarith

theorem wrapCoord_mem (x w : ℚ) (hw : 0 < w) :
    0 ≤ wrapCoord x w ∧ wrapCoord x w < w := by
  unfold wrapCoord
  have h1 : 0 ≤ liftGo (liftFuel x w) x w :=
    liftGo_nonneg w hw _ x (liftFuel_spec x w hw)
  exact ⟨dropGo_nonneg w hw _ _ h1,
    dropGo_lt w hw _ _ (dropFuel_spec (liftGo (liftFuel x w) x w) w hw)⟩

theorem wrapCoord_id (x w : ℚ) (hw : 0 < w) (h0 : 0 ≤ x) (h1 : x < w) :
    wrapCoord x w = x := by
  have hlf : liftFuel x w = 0 := by
    unfold liftFuel
    have hnp : -x / w ≤ 0 := by
      apply div_nonpos_of_nonpos_of_nonneg <;> linarith
    have hc : ⌈-x / w⌉ ≤ 0 := Int.ceil_le.mpr (by exact_mod_cast hnp)
    exact Int.toNat_of_nonpos hc
  have hdf : dropFuel x w = 0 := by
    unfold dropFuel
    have ha : 0 ≤ x / w := div_nonneg h0 hw.le
    have hb : x / w < 1 := by
      rw [div_lt_one hw]; exact h1
    have hz : ⌊x / w⌋ = 0 := by
      apply Int.floor_eq_zero_iff.mpr
      exact ⟨ha, hb⟩
    simp [hz]
  simp [wrapCoord, hlf, hdf, liftGo, dropGo]

/-- C9: for positive extents, `wrapPosition` lands in `[0,W) × [0,H)` and is
idempotent. -/
theorem wrapPosition_range_and_idempotent (p : Vec2) (W H : ℚ)
    (hW : 0 < W) (hH : 0 < H) :
    (0 ≤ (wrapPosition p W H).1 ∧ (wrapPosition p W H).1 < W ∧
     0 ≤ (wrapPosition p W H).2 ∧ (wrapPosition p W H).2 < H) ∧
    wrapPosition (wrapPosition p W H) W H = wrapPosition p W H := by
  obtain ⟨hx0, hx1⟩ := wrapCoord_mem p.1 W hW
  obtain ⟨hy0, hy1⟩ := wrapCoord_mem p.2 H hH
  refine ⟨⟨hx0, hx1, hy0, hy1⟩, ?_⟩
  unfold wrapPosition
  simp only
  rw [wrapCoord_id _ _ hW hx0 hx1, wrapCoord_id _ _ hH hy0 hy1]

/-- C9 witness: the theorem applied at `p = (-5, 11)`, `W = 4`, `H = 3`. -/
theorem wrapPosition_range_and_idempotent_witness :
    (0 ≤ (wrapPosition ((-5 : ℚ), (11 : ℚ)) 4 3).1 ∧
     (wrapPosition ((-5 : ℚ), (11 : ℚ)) 4 3).1 < 4 ∧
     0 ≤ (wrapPosition ((-5 : ℚ), (11 : ℚ)) 4 3).2 ∧
     (wrapPosition ((-5 : ℚ), (11 : ℚ)) 4 3).2 < 3) ∧
    wrapPosition (wrapPosition ((-5 : ℚ), (11 : ℚ)) 4 3) 4 3 =
      wrapPosition ((-5 : ℚ), (11 : ℚ)) 4 3 :=
  wrapPosition_range_and_idempotent ((-5 : ℚ), (11 : ℚ)) 4 3
    (by norm_num) (by norm_num)

/-- Oracles for the operations the embedding leaves abstract: `std::sqrt`,
`std::pow(x, 1.5f)`, `std::log`, and the `rand()`/`mt19937`-derived draws
(together with the `cos`/`sin` applied to random angles, a random angle draw
is modelled as the unit-vector oracle it is only ever used as; the index is a
running draw counter threaded through the simulation). -/
structure Env where
  sq : ℚ → ℚ
  p15 : ℚ → ℚ
  logF : ℚ → ℚ
  pvel : ℕ → Vec2
  fragDir : ℕ → Vec2
  fragSpeed : ℕ → ℚ
  rotDraw : ℕ → ℚ
  urand : ℕ → ℚ
  nrand : ℕ → ℕ
  dirDraw : ℕ → Vec2
  shipDir : ℚ → Vec2

/-- Entity classification (`EntityType`, entity.h). -/
inductive EntityType where
  | ship
  | asteroid
  | bullet
  | blackHole
  | particle
deriving DecidableEq

/-- Ship (entity.h); field defaults are the `Body()` and `Ship()` constructor
values (entity.cpp).  `playerId` is left uninitialized by the C++ constructor
and defaulted to 0 here. -/
structure Ship where
  pos : Vec2 := (0, 0)
  vel : Vec2 := (0, 0)
  acc : Vec2 := (0, 0)
  mass : ℚ := 1500
  wraps : Bool := true
  active : Bool := true
  id : ℤ := 0
  playerId : ℤ := 0
  angle : ℚ := -(157079632 / 100000000)
  radius : ℚ := 10
  lives : ℤ := 3
  score : ℤ := 0
  thrusting : Bool := false
  invulnerable : Bool := false
  invulnerableTime : ℚ := 0
  shootCooldown : ℚ := 0
deriving DecidableEq

/-- Asteroid (entity.h); `radius`, `size` and `mass` are set by
`Asteroid::init` (mass is 0 from the `Body()` constructor). -/
structure Asteroid where
  pos : Vec2 := (0, 0)
  vel : Vec2 := (0, 0)
  acc : Vec2 := (0, 0)
  mass : ℚ := 0
  wraps : Bool := true
  active : Bool := true
  id : ℤ := 0
  radius : ℚ := 0
  size : ℤ := 0
  vertices : ℤ := 8
  rotation : ℚ := 0
  rotationSpeed : ℚ := 0
deriving DecidableEq

/-- Bullet (entity.h) with the `Bullet()` constructor defaults. -/
structure Bullet where
  pos : Vec2 := (0, 0)
  vel : Vec2 := (0, 0)
  acc : Vec2 := (0, 0)
  mass : ℚ := 100
  wraps : Bool := true
  active : Bool := true
  id : ℤ := 0
  playerId : ℤ := 0
  lifetime : ℚ := 0
  maxLifetime : ℚ := 3
  radius : ℚ := 2
deriving DecidableEq

/-- Black hole (entity.h); never wraps. -/
structure BlackHole where
  pos : Vec2 := (0, 0)
  vel : Vec2 := (0, 0)
  acc : Vec2 := (0, 0)
  mass : ℚ := 0
  wraps : Bool := false
  active : Bool := true
  id : ℤ := 0
  accretionRadius : ℚ := 0
  visualRadius : ℚ := 15
deriving DecidableEq

/-- Explosion particle (entity.h) with the `Particle()` constructor
defaults. -/
structure Particle where
  pos : Vec2 := (0, 0)
  vel : Vec2 := (0, 0)
  acc : Vec2 := (0, 0)
  mass : ℚ := 1 / 10
  wraps : Bool := false
  active : Bool := true
  id : ℤ := 0
  lifetime : ℚ := 0
  maxLifetime : ℚ := 1
  playerId : ℤ := -1
deriving DecidableEq

/-- Asteroid::init (entity.cpp); the rotation-speed `rand()` draw is the
oracle value `rot`.  Size classes 0..5 fix radius and a halving mass. -/
def asteroidInit (a : Asteroid) (entityId : ℤ) (position velocity : Vec2)
    (asteroidSize : ℤ) (baseMass : ℚ) (rot : ℚ) : Asteroid :=
  let rm : ℚ × ℚ :=
    if asteroidSize = 0 then (40, baseMass)
    else if asteroidSize = 1 then (25, baseMass * (1/2))
    else if asteroidSize = 2 then (15, baseMass * (1/4))
    else if asteroidSize = 3 then (10, baseMass * (1/8))
    else if asteroidSize = 4 then (6, baseMass * (1/16))
    else if asteroidSize = 5 then (3, baseMass * (1/32))
    else (30, baseMass * (3/4))
  { a with id := entityId, pos := position, vel := velocity, acc := (0, 0),
           size := asteroidSize, active := true,
           radius := rm.1, mass := rm.2, rotationSpeed := rot }

/-- Particle::init (entity.cpp). -/
def particleInit (p : Particle) (position velocity : Vec2) (pid : ℤ) :
    Particle :=
  { p with pos := position, vel := velocity, acc := (0, 0),
           lifetime := p.maxLifetime, active := true, playerId := pid }

/-- The particles one CollisionHandler::createExplosion call appends: `count`
particles at `pos`, each with the oracle velocity `env.pvel (ctr + i)` (the
speed band only feeds the random draw, which the oracle absorbs), lifetime
and maxLifetime scaled by the multiplier, and the given color tag. -/
def explosionList (env : Env) (ctr : ℕ) (pos : Vec2) (count : ℕ)
    (lifetimeMultiplier : ℚ) (playerId : ℤ) : List Particle :=
  (List.range count).map (fun i =>
     let p1 := particleInit {} pos (env.pvel (ctr + i)) playerId
     { p1 with maxLifetime := p1.maxLifetime * lifetimeMultiplier,
               lifetime := p1.maxLifetime * lifetimeMultiplier })

/-- CollisionHandler::createExplosion (collision.cpp): appends `count`
particles at `pos`; returns the particle list and the advanced draw
counter. -/
def createExplosion (env : Env) (ctr : ℕ) (pos : Vec2) (count : ℕ)
    (particles : List Particle)
    (_speedMin _speedMax lifetimeMultiplier : ℚ) (playerId : ℤ) :
    List Particle × ℕ :=
  (particles ++ explosionList env ctr pos count lifetimeMultiplier playerId,
   ctr + count)

theorem explosionList_length (env : Env) (ctr : ℕ) (pos : Vec2) (count : ℕ)
    (m : ℚ) (pid : ℤ) :
    (explosionList env ctr pos count m pid).length = count := by
  simp [explosionList]

theorem explosionList_pos (env : Env) (ctr : ℕ) (pos : Vec2) (count : ℕ)
    (m : ℚ) (pid : ℤ) :
    ∀ p ∈ explosionList env ctr pos count m pid, p.pos = pos := by
  intro p hp
  simp only [explosionList, List.mem_map] at hp
  obtain ⟨i, _, rfl⟩ := hp
  rfl

/-- CollisionHandler::handleBulletAsteroid (collision.cpp).  Each fragment
redraws a random base angle (whose cos/sin pair is the oracle unit vector
`env.fragDir`); fragment `i` uses that angle plus `i`·pi, so fragment 1's
direction is the exact negation of its drawn vector.  `1 << size` is
`2 ^ size`.  Returns (bullet, asteroid, particles, asteroids, nextId, ctr)
after the handler ran. -/
def handleBulletAsteroid (env : Env) (ctr : ℕ) (W H : ℚ)
    (bullet : Bullet) (asteroid : Asteroid) (particles : List Particle)
    (asteroids : List Asteroid) (nextId : ℤ) :
    Bullet × Asteroid × List Particle × List Asteroid × ℤ × ℕ :=
  let bullet' := { bullet with active := false }
  if asteroid.size < 5 then
    let baseMass := asteroid.mass * ((2 : ℚ) ^ asteroid.size)
    let frag (i : ℕ) (c : ℕ) : Asteroid × ℕ :=
      let d0 := env.fragDir c
      let d : Vec2 := if i = 0 then d0 else (-d0.1, -d0.2)
      let offset := vmul d (asteroid.radius * (3/2))
      let newPos := wrapPosition (asteroid.pos + offset) W H
      let speed := env.fragSpeed (c + 1)
      let sepVel := vmul d speed
      let newVel := vmul asteroid.vel (3/10) + sepVel
      (asteroidInit {} (nextId + i) newPos newVel (asteroid.size + 1)
         baseMass (env.rotDraw (c + 2)), c + 3)
    let (f1, c1) := frag 0 ctr
    let (f2, c2) := frag 1 c1
    let (particles', c3) :=
      createExplosion env c2 asteroid.pos 8 particles 50 150 1 (-1)
    ({ bullet with active := false }, { asteroid with active := false },
     particles', asteroids ++ [f1, f2], nextId + 2, c3)
  else
    let (particles', c1) :=
      createExplosion env ctr asteroid.pos 15 particles 50 150 1 (-1)
    (bullet', { asteroid with active := false }, particles', asteroids,
     nextId, c1)

/-- C1: a bullet hitting an active asteroid of non-terminal size class
`k < 5` (with `0 ≤ k`) deactivates the bullet and the asteroid and appends
exactly two active fragments of size class `k+1`, each of half the parent's
mass, so the fragment masses sum to the parent mass. -/
theorem handleBulletAsteroid_split_mass (env : Env) (ctr : ℕ) (W H : ℚ)
    (bullet : Bullet) (asteroid : Asteroid) (particles : List Particle)
    (asteroids : List Asteroid) (nextId : ℤ)
    (hact : asteroid.active = true)
    (hk0 : 0 ≤ asteroid.size) (hk5 : asteroid.size < 5) :
    ∃ f1 f2 : Asteroid,
      (handleBulletAsteroid env ctr W H bullet asteroid particles asteroids
          nextId).2.2.2.1 = asteroids ++ [f1, f2] ∧
      (handleBulletAsteroid env ctr W H bullet asteroid particles asteroids
          nextId).1.active = false ∧
      (handleBulletAsteroid env ctr W H bullet asteroid particles asteroids
          nextId).2.1.active = false ∧
      f1.active = true ∧ f2.active = true ∧
      f1.size = asteroid.size + 1 ∧ f2.size = asteroid.size + 1 ∧
      f1.mass = asteroid.mass / 2 ∧ f2.mass = asteroid.mass / 2 ∧
      f1.mass + f2.mass = asteroid.mass := by
  have hmass : ∀ (i : ℤ) (p v : Vec2) (rot : ℚ),
      (asteroidInit {} i p v (asteroid.size + 1)
        (asteroid.mass * ((2 : ℚ) ^ asteroid.size)) rot).mass =
        asteroid.mass / 2 := by
    intro i p v rot
    have h5 : asteroid.size < 5 := hk5
    interval_cases asteroid.size <;> norm_num [asteroidInit] <;> ring
  unfold handleBulletAsteroid
  rw [if_pos hk5]
  refine ⟨_, _, rfl, rfl, rfl, by simp [asteroidInit], by simp [asteroidInit],
    by simp [asteroidInit], by simp [asteroidInit], hmass _ _ _ _,
    hmass _ _ _ _, ?_⟩
  rw [hmass _ _ _ _, hmass _ _ _ _]
  ring

/-- Concrete oracle instantiation used by witnesses and counterexamples:
the exact rational square root (agreeing with IEEE `std::sqrt` at perfect
squares, the only points where witnesses evaluate it), `x * ratSqrt x` for
`pow(x, 1.5f)`, and constant pseudo-random draws. -/
def testEnv : Env where
  sq := ratSqrt
  p15 := fun x => x * ratSqrt x
  logF := fun _ => 0
  pvel := fun _ => (1, 0)
  fragDir := fun _ => (1, 0)
  fragSpeed := fun _ => 100
  rotDraw := fun _ => 0
  urand := fun _ => 1
  nrand := fun _ => 0
  dirDraw := fun _ => (1, 0)
  shipDir := fun _ => (1, 0)

/-- C1 witness: the split theorem applied to a size-2 asteroid of mass 8. -/
theorem handleBulletAsteroid_split_mass_witness :
    ∃ f1 f2 : Asteroid,
      (handleBulletAsteroid testEnv 0 800 600 {} { mass := 8, size := 2 }
          [] [] 7).2.2.2.1 = [] ++ [f1, f2] ∧
      (handleBulletAsteroid testEnv 0 800 600 {} { mass := 8, size := 2 }
          [] [] 7).1.active = false ∧
      (handleBulletAsteroid testEnv 0 800 600 {} { mass := 8, size := 2 }
          [] [] 7).2.1.active = false ∧
      f1.active = true ∧ f2.active = true ∧
      f1.size = ({ mass := 8, size := 2 } : Asteroid).size + 1 ∧
      f2.size = ({ mass := 8, size := 2 } : Asteroid).size + 1 ∧
      f1.mass = ({ mass := 8, size := 2 } : Asteroid).mass / 2 ∧
      f2.mass = ({ mass := 8, size := 2 } : Asteroid).mass / 2 ∧
      f1.mass + f2.mass = ({ mass := 8, size := 2 } : Asteroid).mass :=
  handleBulletAsteroid_split_mass testEnv 0 800 600 {}
    { mass := 8, size := 2 } [] [] 7 rfl (by decide) (by decide)

/-- CollisionHandler::handleShipShip (collision.cpp): equal-impulse elastic
bounce with separation; `std::sqrt` is the oracle `env.sq`. -/
def handleShipShip (env : Env) (W H : ℚ) (ship1 ship2 : Ship) :
    Ship × Ship :=
  let dr := minimumImage (ship2.pos - ship1.pos) W H
  let dist := env.sq (lengthSq dr)
  if dist < 1 / 1000000 then (ship1, ship2)
  else
    let normal := vdiv dr dist
    let relVel := ship2.vel - ship1.vel
    let velAlongNormal := dot relVel normal
    if velAlongNormal > 0 then (ship1, ship2)
    else
      let impulse := -2 * velAlongNormal / 2
      let s1 := { ship1 with vel := ship1.vel - vmul normal impulse }
      let s2 := { ship2 with vel := ship2.vel + vmul normal impulse }
      let overlap := (ship1.radius + ship2.radius) - dist
      if overlap > 0 then
        let separation := vmul normal (overlap * (1/2))
        ({ s1 with pos := wrapPosition (s1.pos - separation) W H },
         { s2 with pos := wrapPosition (s2.pos + separation) W H })
      else (s1, s2)

/-- CollisionHandler::handleAsteroidAsteroid (collision.cpp): mass-weighted
elastic bounce (restitution 1) with mass-proportional separation. -/
def handleAsteroidAsteroid (env : Env) (W H : ℚ) (a1 a2 : Asteroid) :
    Asteroid × Asteroid :=
  let dr := minimumImage (a2.pos - a1.pos) W H
  let dist := env.sq (lengthSq dr)
  if dist < 1 / 1000000 then (a1, a2)
  else
    let normal := vdiv dr dist
    let relVel := a2.vel - a1.vel
    let velAlongNormal := dot relVel normal
    if velAlongNormal > 0 then (a1, a2)
    else
      let m1 := a1.mass
      let m2 := a2.mass
      let totalMass := m1 + m2
      let restitution : ℚ := 1
      let impulse := -(1 + restitution) * velAlongNormal / (1/m1 + 1/m2)
      let b1 := { a1 with vel := a1.vel - vmul normal (impulse / m1) }
      let b2 := { a2 with vel := a2.vel + vmul normal (impulse / m2) }
      let overlap := (a1.radius + a2.radius) - dist
      if overlap > 0 then
        let separation1 := overlap * (m2 / totalMass)
        let separation2 := overlap * (m1 / totalMass)
        ({ b1 with pos := wrapPosition (b1.pos - vmul normal separation1) W H },
         { b2 with pos := wrapPosition (b2.pos + vmul normal separation2) W H })
      else (b1, b2)

/-- Applying opposite impulses scaled by the inverse masses leaves the total
momentum of a pair unchanged (the algebra behind the asteroid bounce). -/
theorem vmomentum_update (m1 m2 imp : ℚ) (n v1 v2 : Vec2)
    (h1 : m1 ≠ 0) (h2 : m2 ≠ 0) :
    vmul (v1 - vmul n (imp / m1)) m1 + vmul (v2 + vmul n (imp / m2)) m2 =
      vmul v1 m1 + vmul v2 m2 := by
  apply Prod.ext <;> simp [vmul] <;> field_simp <;> ring

/-- Applying opposite equal impulses to two bodies of one common mass leaves
the total momentum unchanged (the algebra behind the ship bounce). -/
theorem vmomentum_update_eqmass (m imp : ℚ) (n v1 v2 : Vec2) :
    vmul (v1 - vmul n imp) m + vmul (v2 + vmul n imp) m =
      vmul v1 m + vmul v2 m := by
  apply Prod.ext <;> simp [vmul] <;> ring

/-- C2 (amended): asteroid-asteroid resolution conserves total momentum for
any positive masses; ship-ship resolution conserves it when the two ships
have equal mass (in the engine all ships carry the same configured mass).
With unequal ship masses `handleShipShip` does not conserve momentum (see
the counterexample). -/
theorem momentum_conservation_amended :
    (∀ (env : Env) (W H : ℚ) (a1 a2 : Asteroid),
        0 < a1.mass → 0 < a2.mass →
        vmul (handleAsteroidAsteroid env W H a1 a2).1.vel a1.mass +
          vmul (handleAsteroidAsteroid env W H a1 a2).2.vel a2.mass =
          vmul a1.vel a1.mass + vmul a2.vel a2.mass) ∧
    (∀ (env : Env) (W H : ℚ) (s1 s2 : Ship),
        s1.mass = s2.mass →
        vmul (handleShipShip env W H s1 s2).1.vel s1.mass +
          vmul (handleShipShip env W H s1 s2).2.vel s2.mass =
          vmul s1.vel s1.mass + vmul s2.vel s2.mass) := by
  constructor
  · intro env W H a1 a2 h1 h2
    have h1' : a1.mass ≠ 0 := ne_of_gt h1
    have h2' : a2.mass ≠ 0 := ne_of_gt h2
    unfold handleAsteroidAsteroid
    dsimp only
    split_ifs <;>
      first
        | rfl
        | exact vmomentum_update a1.mass a2.mass _ _ a1.vel a2.vel h1' h2'
  · intro env W H s1 s2 hm
    unfold handleShipShip
    dsimp only
    rw [hm]
    split_ifs <;>
      first
        | rfl
        | exact vmomentum_update_eqmass s2.mass _ _ s1.vel s2.vel

/-- Colliding ship for the C2 counterexample: mass 1, moving right. -/
def cexShipA : Ship := { pos := (0, 0), vel := (1, 0), mass := 1 }

/-- Colliding ship for the C2 counterexample: mass 2, moving left. -/
def cexShipB : Ship := { pos := (8, 0), vel := (-1, 0), mass := 2 }

/-- C2 counterexample: an approaching, non-coincident ship pair of masses 1
and 2 for which `handleShipShip` changes the total momentum. -/
theorem handleShipShip_momentum_counterexample :
    cexShipA.pos ≠ cexShipB.pos ∧
    dot (cexShipB.vel - cexShipA.vel)
        (minimumImage (cexShipB.pos - cexShipA.pos) 100 100) ≤ 0 ∧
    vmul (handleShipShip testEnv 100 100 cexShipA cexShipB).1.vel
        cexShipA.mass +
      vmul (handleShipShip testEnv 100 100 cexShipA cexShipB).2.vel
        cexShipB.mass ≠
      vmul cexShipA.vel cexShipA.mass + vmul cexShipB.vel cexShipB.mass := by
  have h64 : ratSqrt 64 = 8 := by unfold ratSqrt; simp; norm_num
  refine ⟨by norm_num [cexShipA, cexShipB, Prod.ext_iff], ?_, ?_⟩
  · norm_num [cexShipA, cexShipB, minimumImage, dot]
  · simp only [handleShipShip, cexShipA, cexShipB, testEnv]
    norm_num [minimumImage, lengthSq, dot, vdiv, vmul, h64]

/-- C2 witness: both conjuncts of the amended momentum theorem applied at
concrete pairs (asteroids of masses 1 and 2; ships of equal mass 1500). -/
theorem momentum_conservation_amended_witness :
    (vmul (handleAsteroidAsteroid testEnv 100 100
        { pos := (0, 0), vel := (1, 0), mass := 1 }
        { pos := (8, 0), vel := (-1, 0), mass := 2 }).1.vel 1 +
      vmul (handleAsteroidAsteroid testEnv 100 100
        { pos := (0, 0), vel := (1, 0), mass := 1 }
        { pos := (8, 0), vel := (-1, 0), mass := 2 }).2.vel 2 =
      vmul (1, 0) 1 + vmul (-1, 0) 2) ∧
    (vmul (handleShipShip testEnv 100 100
        { pos := (0, 0), vel := (1, 0) } { pos := (8, 0), vel := (-1, 0) }).1.vel
        1500 +
      vmul (handleShipShip testEnv 100 100
        { pos := (0, 0), vel := (1, 0) } { pos := (8, 0), vel := (-1, 0) }).2.vel
        1500 =
      vmul (1, 0) 1500 + vmul (-1, 0) 1500) :=
  ⟨momentum_conservation_amended.1 testEnv 100 100
      { pos := (0, 0), vel := (1, 0), mass := 1 }
      { pos := (8, 0), vel := (-1, 0), mass := 2 } (by norm_num) (by norm_num),
   momentum_conservation_amended.2 testEnv 100 100
      { pos := (0, 0), vel := (1, 0) } { pos := (8, 0), vel := (-1, 0) } rfl⟩

/-- NoPotential::accelerationAt (potential.h): identically zero. -/
def noPotentialAccelerationAt (_pos : Vec2) : Vec2 := (0, 0)

/-- PointMassPotential::accelerationAt (potential.h): softened Kepler field;
`std::pow(r2 + eps*eps, 1.5f)` is the oracle `p15`. -/
def pointMassAccelerationAt (p15 : ℚ → ℚ) (center : Vec2) (GM eps : ℚ)
    (pos : Vec2) : Vec2 :=
  let dr := center - pos
  let r2 := lengthSq dr
  let r3 := p15 (r2 + eps * eps)
  vmul dr (GM / r3)

/-- HarmonicPotential::accelerationAt (potential.h): linear restoring
acceleration. -/
def harmonicAccelerationAt (center : Vec2) (omega2 : ℚ) (pos : Vec2) :
    Vec2 :=
  let dr := pos - center
  vmul dr (-omega2)

/-- LogarithmicPotential::accelerationAt (potential.h); `std::sqrt` is the
oracle `sq`.  Guards `r < 1e-6` by returning zero. -/
def logarithmicAccelerationAt (sq : ℚ → ℚ) (center : Vec2) (v0 rc : ℚ)
    (pos : Vec2) : Vec2 :=
  let dr := pos - center
  let r2 := lengthSq dr
  let r := sq r2
  if r < 1 / 1000000 then (0, 0)
  else vmul dr (-v0 * v0 / (r2 + rc * rc))

/-- NFWPotential::accelerationAt (potential.h); `std::sqrt` is `sq` and
`std::log` is `logF`.  Guards `r < 1e-6` by returning zero. -/
def nfwAccelerationAt (sq logF : ℚ → ℚ) (center : Vec2)
    (rho_s r_s G eps : ℚ) (pos : Vec2) : Vec2 :=
  let dr := pos - center
  let r := sq (lengthSq dr)
  if r < 1 / 1000000 then (0, 0)
  else
    let x := r / r_s
    let ln_term := logF (1 + x)
    let frac_term := x / (1 + x)
    let M_enc := 4 * (314159265 / 100000000 : ℚ) * rho_s * r_s * r_s * r_s *
      (ln_term - frac_term)
    let r2_soft := r * r + eps * eps
    let factor := -G * M_enc / (r2_soft * sq r2_soft)
    vmul dr factor

/-- C8 counterexample: the harmonic potential (`omega2 = 1`, centered at the
origin) at distance `1e-7 < 1e-6` from its center returns a nonzero
acceleration, against the claim that every variant returns zero below a
small epsilon (the comparison `r < 1e-6` is stated on squares to avoid the
square root). -/
theorem potential_small_r_counterexample :
    lengthSq (((1 / 10000000 : ℚ), (0 : ℚ)) - ((0 : ℚ), (0 : ℚ))) <
      (1 / 1000000) * (1 / 1000000) ∧
    harmonicAccelerationAt ((0 : ℚ), (0 : ℚ)) 1
      ((1 / 10000000 : ℚ), (0 : ℚ)) ≠ (0, 0) := by
  constructor
  · norm_num [lengthSq]
  · norm_num [harmonicAccelerationAt, vmul, Prod.ext_iff]

/-- C8 (amended): the logarithmic and NFW variants return zero acceleration
whenever the computed distance is below `1e-6`; the point-mass, harmonic and
trivial variants return zero at the center itself (`r = 0`), but for
`0 < r < 1e-6` the point-mass variant returns its softened closed form and
the harmonic variant its linear form, both generally nonzero (the point-mass
divisor is `(r^2 + eps^2)^1.5 ≥ eps^3`, so no near-zero division occurs for
`eps > 0`, and the harmonic form divides by nothing). -/
theorem potential_small_r_amended :
    (∀ (sq : ℚ → ℚ) (center : Vec2) (v0 rc : ℚ) (pos : Vec2),
        sq (lengthSq (pos - center)) < 1 / 1000000 →
        logarithmicAccelerationAt sq center v0 rc pos = (0, 0)) ∧
    (∀ (sq logF : ℚ → ℚ) (center : Vec2) (rho_s r_s G eps : ℚ)
        (pos : Vec2),
        sq (lengthSq (pos - center)) < 1 / 1000000 →
        nfwAccelerationAt sq logF center rho_s r_s G eps pos = (0, 0)) ∧
    (∀ (p15 : ℚ → ℚ) (center : Vec2) (GM eps : ℚ),
        pointMassAccelerationAt p15 center GM eps center = (0, 0)) ∧
    (∀ (center : Vec2) (omega2 : ℚ),
        harmonicAccelerationAt center omega2 center = (0, 0)) ∧
    (∀ pos : Vec2, noPotentialAccelerationAt pos = (0, 0)) := by
  refine ⟨?_, ?_, ?_, ?_, fun _ => rfl⟩
  · intro sq center v0 rc pos hr
    simp only [logarithmicAccelerationAt]
    rw [if_pos hr]
  · intro sq logF center rho_s r_s G eps pos hr
    simp only [nfwAccelerationAt]
    rw [if_pos hr]
  · intro p15 center GM eps
    simp [pointMassAccelerationAt, vmul]
  · intro center omega2
    simp [harmonicAccelerationAt, vmul]

/-- C8 witness: the amended theorem applied with the rational square root at
a point at distance 0 (squared length 0, `ratSqrt 0 = 0 < 1e-6`) for the
guarded variants, and at the center for the unguarded ones. -/
theorem potential_small_r_amended_witness :
    logarithmicAccelerationAt ratSqrt ((3 : ℚ), (4 : ℚ)) 10 5
      ((3 : ℚ), (4 : ℚ)) = (0, 0) ∧
    nfwAccelerationAt ratSqrt (fun _ => 0) ((3 : ℚ), (4 : ℚ)) 1 2 50 10
      ((3 : ℚ), (4 : ℚ)) = (0, 0) ∧
    pointMassAccelerationAt (fun x => x * ratSqrt x) ((3 : ℚ), (4 : ℚ))
      50000 20 ((3 : ℚ), (4 : ℚ)) = (0, 0) ∧
    harmonicAccelerationAt ((3 : ℚ), (4 : ℚ)) (1 / 10000)
      ((3 : ℚ), (4 : ℚ)) = (0, 0) ∧
    noPotentialAccelerationAt ((3 : ℚ), (4 : ℚ)) = (0, 0) := by
  have h0 : ratSqrt (lengthSq (((3 : ℚ), (4 : ℚ)) - ((3 : ℚ), (4 : ℚ)))) <
      1 / 1000000 := by
    norm_num [lengthSq, ratSqrt]
  exact ⟨potential_small_r_amended.1 ratSqrt _ 10 5 _ h0,
    potential_small_r_amended.2.1 ratSqrt (fun _ => 0) _ 1 2 50 10 _ h0,
    potential_small_r_amended.2.2.1 (fun x => x * ratSqrt x) _ 50000 20,
    potential_small_r_amended.2.2.2.1 _ (1 / 10000),
    potential_small_r_amended.2.2.2.2 _⟩

/-- A point at offset `(x/S*r, y/S*r)` lies on the circle of radius `r` when
`S` is the exact square root of `x^2 + y^2`. -/
theorem circle_radius_sq (x y S r : ℚ) (hS : S ≠ 0)
    (h : S * S = x * x + y * y) :
    x / S * r * (x / S * r) + y / S * r * (y / S * r) = r * r := by
  field_simp
  linear_combination (-(r * r)) * h

/-- CollisionHandler::handleShipAsteroid (collision.cpp).  The asteroid is
only read; the ship is damaged, and either destroyed with a two-burst
explosion or respawned at the domain center with a single burst at the
contact point.  Returns (ship, particles, draw counter). -/
def handleShipAsteroid (env : Env) (ctr : ℕ) (W H : ℚ)
    (ship : Ship) (asteroid : Asteroid) (particles : List Particle) :
    Ship × List Particle × ℕ :=
  let dr := minimumImage (asteroid.pos - ship.pos) W H
  let dist := env.sq (lengthSq dr)
  let collisionPoint :=
    if dist > 1 / 1000000 then ship.pos + vmul (vdiv dr dist) ship.radius
    else ship.pos
  let lives' := ship.lives - 1
  if lives' ≤ 0 then
    let e1 := createExplosion env ctr collisionPoint 50 particles 150 350
      (13/10) ship.playerId
    let e2 := createExplosion env e1.2 ship.pos 40 e1.1 100 300 (3/2)
      ship.playerId
    ({ ship with lives := lives', active := false }, e2.1, e2.2)
  else
    let e1 := createExplosion env ctr collisionPoint 40 particles 150 350
      (13/10) ship.playerId
    ({ ship with lives := lives', invulnerable := true,
                 invulnerableTime := 3,
                 pos := (W * (1/2), H * (1/2)), vel := (0, 0) },
     e1.1, e1.2)

/-- Contact point the handler explodes at: the point on the ship's collision
circle in the direction of the asteroid's minimum image. -/
def shipAstContactPoint (env : Env) (W H : ℚ) (ship : Ship)
    (asteroid : Asteroid) : Vec2 :=
  ship.pos + vmul (vdiv (minimumImage (asteroid.pos - ship.pos) W H)
    (env.sq (lengthSq (minimumImage (asteroid.pos - ship.pos) W H))))
    ship.radius

/-- C6: `handleShipAsteroid` decrements the ship's lives.  If they reach 0
the ship is deactivated and a two-stage explosion of 50 + 40 = 90 ≥ 80
particles is emitted (first burst at the contact point, second at the ship).
Otherwise the ship gets invulnerability of fixed duration 3, respawns at the
domain center with zero velocity, and a single 40-particle burst is emitted
at the contact point, which lies on the ship's collision circle along the
minimum-image direction toward the asteroid.  Hypotheses: the square-root
oracle is exact at the squared distance, the distance exceeds the `1e-6`
guard (non-coincident bodies), and the ship's radius is positive. -/
theorem handleShipAsteroid_spec (env : Env) (ctr : ℕ) (W H : ℚ)
    (ship : Ship) (asteroid : Asteroid) (particles : List Particle)
    (hsq : env.sq (lengthSq (minimumImage (asteroid.pos - ship.pos) W H)) *
        env.sq (lengthSq (minimumImage (asteroid.pos - ship.pos) W H)) =
        lengthSq (minimumImage (asteroid.pos - ship.pos) W H))
    (hdist : 1 / 1000000 <
        env.sq (lengthSq (minimumImage (asteroid.pos - ship.pos) W H)))
    (hrad : 0 < ship.radius) :
    (handleShipAsteroid env ctr W H ship asteroid particles).1.lives =
      ship.lives - 1 ∧
    lengthSq (shipAstContactPoint env W H ship asteroid - ship.pos) =
      ship.radius * ship.radius ∧
    shipAstContactPoint env W H ship asteroid - ship.pos =
      vmul (minimumImage (asteroid.pos - ship.pos) W H)
        (ship.radius /
          env.sq (lengthSq (minimumImage (asteroid.pos - ship.pos) W H))) ∧
    0 < ship.radius /
        env.sq (lengthSq (minimumImage (asteroid.pos - ship.pos) W H)) ∧
    (if ship.lives - 1 ≤ 0 then
      (handleShipAsteroid env ctr W H ship asteroid particles).1.active =
          false ∧
      (handleShipAsteroid env ctr W H ship asteroid particles).2.1 =
        particles ++
          explosionList env ctr (shipAstContactPoint env W H ship asteroid)
            50 (13/10) ship.playerId ++
          explosionList env (ctr + 50) ship.pos 40 (3/2) ship.playerId ∧
      (handleShipAsteroid env ctr W H ship asteroid particles).2.1.length =
        particles.length + 90 ∧
      (∀ p ∈ explosionList env ctr
          (shipAstContactPoint env W H ship asteroid) 50 (13/10)
          ship.playerId, p.pos = shipAstContactPoint env W H ship asteroid) ∧
      (∀ p ∈ explosionList env (ctr + 50) ship.pos 40 (3/2) ship.playerId,
          p.pos = ship.pos)
    else
      (handleShipAsteroid env ctr W H ship asteroid particles).1.active =
          ship.active ∧
      (handleShipAsteroid env ctr W H ship asteroid
          particles).1.invulnerable = true ∧
      (handleShipAsteroid env ctr W H ship asteroid
          particles).1.invulnerableTime = 3 ∧
      (handleShipAsteroid env ctr W H ship asteroid particles).1.pos =
        (W * (1/2), H * (1/2)) ∧
      (handleShipAsteroid env ctr W H ship asteroid particles).1.vel =
        (0, 0) ∧
      (handleShipAsteroid env ctr W H ship asteroid particles).2.1 =
        particles ++
          explosionList env ctr (shipAstContactPoint env W H ship asteroid)
            40 (13/10) ship.playerId ∧
      (∀ p ∈ explosionList env ctr
          (shipAstContactPoint env W H ship asteroid) 40 (13/10)
          ship.playerId,
          p.pos = shipAstContactPoint env W H ship asteroid)) := by
  have hd0 : (0 : ℚ) <
      env.sq (lengthSq (minimumImage (asteroid.pos - ship.pos) W H)) := by
    calc (0 : ℚ) < 1 / 1000000 := by norm_num
    _ < _ := hdist
  have hdne : env.sq (lengthSq (minimumImage (asteroid.pos - ship.pos) W H))
      ≠ 0 := ne_of_gt hd0
  refine ⟨?_, ?_, ?_, ?_, ?_⟩
  · unfold handleShipAsteroid
    dsimp only
    split_ifs <;> rfl
  · have hx := hsq
    have hne := hdne
    simp only [lengthSq] at hx hne
    simp only [shipAstContactPoint, vmul, vdiv, lengthSq,
      add_sub_cancel_left]
    exact circle_radius_sq _ _ _ _ hne hx
  · simp only [shipAstContactPoint, vmul, vdiv, add_sub_cancel_left]
    apply Prod.ext <;> simp <;> ring
  · exact div_pos hrad hd0
  · unfold handleShipAsteroid
    dsimp only
    rw [if_pos (by exact hdist : (1:ℚ) / 1000000 <
      env.sq (lengthSq (minimumImage (asteroid.pos - ship.pos) W H)))]
    by_cases hl : ship.lives - 1 ≤ 0
    · rw [if_pos hl, if_pos hl]
      refine ⟨rfl, ?_, ?_, explosionList_pos _ _ _ _ _ _,
        explosionList_pos _ _ _ _ _ _⟩
      · simp [createExplosion, shipAstContactPoint, List.append_assoc]
      · simp [createExplosion, explosionList_length]
    · rw [if_neg hl, if_neg hl]
      exact ⟨rfl, rfl, rfl, rfl, rfl,
        by simp [createExplosion, shipAstContactPoint],
        explosionList_pos _ _ _ _ _ _⟩

/-- Witness ship for C6: at the origin with default radius 10 and 3 lives. -/
def wShip : Ship := { pos := (0, 0) }

/-- Witness asteroid for C6: at (30, 40), distance 50 from the ship. -/
def wAst : Asteroid := { pos := (30, 40) }

/-- C6 witness: the theorem applied with the exact rational square root at
squared distance 2500 (`ratSqrt 2500 = 50`). -/
theorem handleShipAsteroid_spec_witness :
    (handleShipAsteroid testEnv 0 1000 1000 wShip wAst []).1.lives =
      wShip.lives - 1 ∧
    lengthSq (shipAstContactPoint testEnv 1000 1000 wShip wAst - wShip.pos) =
      wShip.radius * wShip.radius ∧
    shipAstContactPoint testEnv 1000 1000 wShip wAst - wShip.pos =
      vmul (minimumImage (wAst.pos - wShip.pos) 1000 1000)
        (wShip.radius /
          testEnv.sq (lengthSq (minimumImage (wAst.pos - wShip.pos)
            1000 1000))) ∧
    0 < wShip.radius /
        testEnv.sq (lengthSq (minimumImage (wAst.pos - wShip.pos)
          1000 1000)) ∧
    (if wShip.lives - 1 ≤ 0 then
      (handleShipAsteroid testEnv 0 1000 1000 wShip wAst []).1.active =
          false ∧
      (handleShipAsteroid testEnv 0 1000 1000 wShip wAst []).2.1 =
        [] ++
          explosionList testEnv 0 (shipAstContactPoint testEnv 1000 1000
            wShip wAst) 50 (13/10) wShip.playerId ++
          explosionList testEnv (0 + 50) wShip.pos 40 (3/2) wShip.playerId ∧
      (handleShipAsteroid testEnv 0 1000 1000 wShip wAst []).2.1.length =
        ([] : List Particle).length + 90 ∧
      (∀ p ∈ explosionList testEnv 0 (shipAstContactPoint testEnv 1000 1000
          wShip wAst) 50 (13/10) wShip.playerId,
          p.pos = shipAstContactPoint testEnv 1000 1000 wShip wAst) ∧
      (∀ p ∈ explosionList testEnv (0 + 50) wShip.pos 40 (3/2)
          wShip.playerId, p.pos = wShip.pos)
    else
      (handleShipAsteroid testEnv 0 1000 1000 wShip wAst []).1.active =
          wShip.active ∧
      (handleShipAsteroid testEnv 0 1000 1000 wShip
          wAst []).1.invulnerable = true ∧
      (handleShipAsteroid testEnv 0 1000 1000 wShip
          wAst []).1.invulnerableTime = 3 ∧
      (handleShipAsteroid testEnv 0 1000 1000 wShip wAst []).1.pos =
        (1000 * (1/2), 1000 * (1/2)) ∧
      (handleShipAsteroid testEnv 0 1000 1000 wShip wAst []).1.vel =
        (0, 0) ∧
      (handleShipAsteroid testEnv 0 1000 1000 wShip wAst []).2.1 =
        [] ++
          explosionList testEnv 0 (shipAstContactPoint testEnv 1000 1000
            wShip wAst) 40 (13/10) wShip.playerId ∧
      (∀ p ∈ explosionList testEnv 0 (shipAstContactPoint testEnv 1000 1000
          wShip wAst) 40 (13/10) wShip.playerId,
          p.pos = shipAstContactPoint testEnv 1000 1000 wShip wAst)) :=
  handleShipAsteroid_spec testEnv 0 1000 1000 wShip wAst []
    (by norm_num [wShip, wAst, minimumImage, lengthSq, testEnv, ratSqrt]
        simp only [Int.reduceToNat]
        norm_num)
    (by norm_num [wShip, wAst, minimumImage, lengthSq, testEnv, ratSqrt]
        simp only [Int.reduceToNat]
        norm_num)
    (by norm_num [wShip])

/-- A body as the quadtree sees it: position and mass (`Body*` fields the
tree reads). -/
structure PBody where
  pos : Vec2
  mass : ℚ
deriving DecidableEq

/-- QuadTreeNode (quadtree.h): an empty leaf, a leaf holding one body, or an
internal node with its aggregate center of mass / total mass and four
children in the order NW, NE, SW, SE.  Each constructor carries the node's
geometric center and half-size.  A leaf's centerOfMass/totalMass are the
held body's position/mass (or zero when empty), exactly what `insert`
stores there. -/
inductive QNode where
  | leafE (c : Vec2) (h : ℚ)
  | leafB (c : Vec2) (h : ℚ) (b : PBody)
  | inner (c : Vec2) (h : ℚ) (com : Vec2) (tm : ℚ) (nw ne sw se : QNode)

/-- Geometric center of a node. -/
def QNode.center : QNode → Vec2
  | .leafE c _ => c
  | .leafB c _ _ => c
  | .inner c _ _ _ _ _ _ _ => c

/-- Half-size of a node's square region. -/
def QNode.half : QNode → ℚ
  | .leafE _ h => h
  | .leafB _ h _ => h
  | .inner _ h _ _ _ _ _ _ => h

/-- QuadTreeNode::getQuadrant: bit 0 = east (x ≥ center.x), bit 1 = south
(y ≥ center.y); 0 = NW, 1 = NE, 2 = SW, 3 = SE. -/
def getQuadrant (c p : Vec2) : ℕ :=
  (if p.1 ≥ c.1 then 1 else 0) + (if p.2 ≥ c.2 then 2 else 0)

/-- Child selection from the four children by quadrant index. -/
def childAt (q : ℕ) (nw ne sw se : QNode) : QNode :=
  if q = 0 then nw else if q = 1 then ne else if q = 2 then sw else se

/-- Replacing the child at a quadrant index. -/
def withChild (q : ℕ) (nw ne sw se t : QNode) :
    QNode × QNode × QNode × QNode :=
  if q = 0 then (t, ne, sw, se)
  else if q = 1 then (nw, t, sw, se)
  else if q = 2 then (nw, ne, t, se)
  else (nw, ne, sw, t)

/-- Center of the `q`-th child `subdivide` creates for a node centered at
`c` with half-size `h`. -/
def childCenter (c : Vec2) (h : ℚ) (q : ℕ) : Vec2 :=
  ((if q = 1 ∨ q = 3 then c.1 + h * (1/2) else c.1 - h * (1/2)),
   (if q = 2 ∨ q = 3 then c.2 + h * (1/2) else c.2 - h * (1/2)))

/-- QuadTreeNode::insert (quadtree.cpp) on explicit fuel, one unit per C++
recursive call; `none` when the fuel runs out (the C++ recursion is
unbounded on coincident positions).  A leaf holding a body subdivides,
reinserts the displaced body, inserts the new one, and recomputes the
aggregates; an internal node routes the body down and updates its
aggregates incrementally. -/
def insertB : ℕ → QNode → PBody → Option QNode
  | 0, _, _ => none
  | _ + 1, .leafE c h, b => some (.leafB c h b)
  | f + 1, .leafB c h e, b =>
      let nh := h * (1/2)
      let nw0 : QNode := .leafE (c.1 - nh, c.2 - nh) nh
      let ne0 : QNode := .leafE (c.1 + nh, c.2 - nh) nh
      let sw0 : QNode := .leafE (c.1 - nh, c.2 + nh) nh
      let se0 : QNode := .leafE (c.1 + nh, c.2 + nh) nh
      let q1 := getQuadrant c e.pos
      (insertB f (childAt q1 nw0 ne0 sw0 se0) e).bind fun t1 =>
        let k1 := withChild q1 nw0 ne0 sw0 se0 t1
        let q2 := getQuadrant c b.pos
        (insertB f (childAt q2 k1.1 k1.2.1 k1.2.2.1 k1.2.2.2) b).bind
          fun t2 =>
            let k2 := withChild q2 k1.1 k1.2.1 k1.2.2.1 k1.2.2.2 t2
            let tm := e.mass + b.mass
            some (.inner c h
              (vdiv (vmul e.pos e.mass + vmul b.pos b.mass) tm) tm
              k2.1 k2.2.1 k2.2.2.1 k2.2.2.2)
  | f + 1, .inner c h com tm nw ne sw se, b =>
      let q := getQuadrant c b.pos
      (insertB f (childAt q nw ne sw se) b).bind fun t =>
        let k := withChild q nw ne sw se t
        let tm' := tm + b.mass
        let com' := if tm' > 0
          then vdiv (vmul com tm + vmul b.pos b.mass) tm' else com
        some (.inner c h com' tm' k.1 k.2.1 k.2.2.1 k.2.2.2)

/-- QuadTree::build (quadtree.cpp) on explicit insert fuel: a fresh root
centered at the domain center with half-size `max(W,H)/2`, then every body
inserted in order. -/
def buildFuel (fuel : ℕ) (bodies : List PBody) (W H : ℚ) : Option QNode :=
  bodies.foldlM (fun t b => insertB fuel t b)
    (QNode.leafE (W * (1/2), H * (1/2)) (max W H * (1/2)))

/-- QuadTreeNode::calculateAcceleration (quadtree.cpp); `sq` is `std::sqrt`
and `p15` is `std::pow(-, 1.5f)`.  A zero-total-mass node contributes
nothing; a leaf is skipped when it holds the query body (same position and
mass) and otherwise contributes the softened direct term; an internal node
is approximated by its aggregate when the opening criterion `s/d < theta`
holds and recursed into otherwise.  In C++ `s / r` is `+inf` when `r = 0`,
which never satisfies the criterion; the guard `0 < r ∧ s / r < theta`
states exactly that. -/
def calcAcc (sq p15 : ℚ → ℚ) (theta eps G W H : ℚ) (pos : Vec2)
    (mass : ℚ) : QNode → Vec2
  | .leafE _ _ => (0, 0)
  | .leafB _ _ b =>
      if b.mass = 0 then (0, 0)
      else
        let dr := minimumImage (b.pos - pos) W H
        let r2 := lengthSq dr
        if b.pos = pos ∧ b.mass = mass then (0, 0)
        else vmul dr (G * b.mass / p15 (r2 + eps * eps))
  | .inner _ h com tm nw ne sw se =>
      if tm = 0 then (0, 0)
      else
        let dr := minimumImage (com - pos) W H
        let r2 := lengthSq dr
        let r := sq r2
        let s := h * 2
        if 0 < r ∧ s / r < theta then
          vmul dr (G * tm / p15 (r2 + eps * eps))
        else
          calcAcc sq p15 theta eps G W H pos mass nw +
            calcAcc sq p15 theta eps G W H pos mass ne +
            calcAcc sq p15 theta eps G W H pos mass sw +
            calcAcc sq p15 theta eps G W H pos mass se

/-- All bodies stored in the subtree's leaves (NW, NE, SW, SE order). -/
def treeBodies : QNode → List PBody
  | .leafE _ _ => []
  | .leafB _ _ b => [b]
  | .inner _ _ _ _ nw ne sw se =>
      treeBodies nw ++ treeBodies ne ++ treeBodies sw ++ treeBodies se

/-- Aggregate-mass invariant: every internal node's totalMass is the sum of
the masses stored in its subtree. -/
def massInv : QNode → Prop
  | .leafE _ _ => True
  | .leafB _ _ _ => True
  | .inner _ _ _ tm nw ne sw se =>
      tm = ((treeBodies nw ++ treeBodies ne ++ treeBodies sw ++
        treeBodies se).map PBody.mass).sum ∧
      massInv nw ∧ massInv ne ∧ massInv sw ∧ massInv se

/-- Positive cell sizes throughout a tree. -/
def sizeInv : QNode → Prop
  | .leafE _ h => 0 < h
  | .leafB _ h _ => 0 < h
  | .inner _ h _ _ nw ne sw se =>
      0 < h ∧ sizeInv nw ∧ sizeInv ne ∧ sizeInv sw ∧ sizeInv se

/-- Modelled from the spec: the direct O(N^2) softened pairwise sum
(`a += G*m*dr/(dr^2+eps^2)^1.5` over all bodies, minimum-image
displacements, self term excluded) that the Barnes-Hut query is compared
against in the convergence property.  The self term is identified the way
the tree identifies it: same position and mass as the query. -/
def directAcc (p15 : ℚ → ℚ) (eps G W H : ℚ) (pos : Vec2) (mass : ℚ)
    (bodies : List PBody) : Vec2 :=
  (bodies.map (fun b =>
    if b.pos = pos ∧ b.mass = mass then ((0 : ℚ), (0 : ℚ))
    else
      let dr := minimumImage (b.pos - pos) W H
      vmul dr (G * b.mass / p15 (lengthSq dr + eps * eps)))).sum

theorem getQuadrant_lt_four (c p : Vec2) : getQuadrant c p < 4 := by
  unfold getQuadrant; split_ifs <;> norm_num

theorem treeBodies_withChild (q : ℕ) (nw ne sw se t : QNode) (x : PBody)
    (hp : List.Perm (treeBodies t)
      (x :: treeBodies (childAt q nw ne sw se))) :
    List.Perm
      (treeBodies (withChild q nw ne sw se t).1 ++
        treeBodies (withChild q nw ne sw se t).2.1 ++
        treeBodies (withChild q nw ne sw se t).2.2.1 ++
        treeBodies (withChild q nw ne sw se t).2.2.2)
      (x :: (treeBodies nw ++ treeBodies ne ++ treeBodies sw ++
        treeBodies se)) := by
  unfold childAt at hp
  unfold withChild
  split_ifs at hp ⊢ <;>
  · rw [List.perm_iff_count] at hp ⊢
    intro a
    have hc := hp a
    simp only [List.count_append, List.count_cons] at hc ⊢
    omega

theorem insertB_perm : ∀ (f : ℕ) (t : QNode) (b : PBody) (t' : QNode),
    insertB f t b = some t' →
    List.Perm (treeBodies t') (b :: treeBodies t) := by
  intro f
  induction f with
  | zero => intro t b t' h; cases h
  | succ f ih =>
    intro t b t' h
    cases t with
    | leafE c hh =>
      simp only [insertB] at h
      cases h
      simp [treeBodies]
    | leafB c hh e =>
      simp only [insertB] at h
      rw [Option.bind_eq_some] at h
      obtain ⟨t1, h1, h⟩ := h
      rw [Option.bind_eq_some] at h
      obtain ⟨t2, h2, h⟩ := h
      cases h
      have p1 := ih _ _ _ h1
      have p2 := ih _ _ _ h2
      have u1 := treeBodies_withChild (getQuadrant c e.pos) _ _ _ _ t1 e p1
      have u2 := treeBodies_withChild (getQuadrant c b.pos) _ _ _ _ t2 b p2
      simp only [treeBodies, List.append_nil] at u1
      refine List.Perm.trans ?_ (List.Perm.cons b (u1.trans ?_))
      · simpa [treeBodies] using u2
      · rfl
    | inner c hh com tm nw ne sw se =>
      simp only [insertB] at h
      rw [Option.bind_eq_some] at h
      obtain ⟨t1, h1, h⟩ := h
      cases h
      have p1 := ih _ _ _ h1
      have u1 := treeBodies_withChild (getQuadrant c b.pos) _ _ _ _ t1 b p1
      simpa [treeBodies] using u1

theorem massInv_leafE (c : Vec2) (h : ℚ) : massInv (QNode.leafE c h) :=
  trivial

theorem massInv_childAt (q : ℕ) {a b c d : QNode}
    (h : massInv a ∧ massInv b ∧ massInv c ∧ massInv d) :
    massInv (childAt q a b c d) := by
  unfold childAt; split_ifs <;> tauto

theorem massInv_withChild (q : ℕ) {a b c d t : QNode}
    (h : massInv a ∧ massInv b ∧ massInv c ∧ massInv d) (ht : massInv t) :
    massInv (withChild q a b c d t).1 ∧
    massInv (withChild q a b c d t).2.1 ∧
    massInv (withChild q a b c d t).2.2.1 ∧
    massInv (withChild q a b c d t).2.2.2 := by
  unfold withChild; split_ifs <;> exact ⟨by tauto, by tauto, by tauto,
    by tauto⟩

theorem sizeInv_childAt (q : ℕ) {a b c d : QNode}
    (h : sizeInv a ∧ sizeInv b ∧ sizeInv c ∧ sizeInv d) :
    sizeInv (childAt q a b c d) := by
  unfold childAt; split_ifs <;> tauto

theorem sizeInv_withChild (q : ℕ) {a b c d t : QNode}
    (h : sizeInv a ∧ sizeInv b ∧ sizeInv c ∧ sizeInv d) (ht : sizeInv t) :
    sizeInv (withChild q a b c d t).1 ∧
    sizeInv (withChild q a b c d t).2.1 ∧
    sizeInv (withChild q a b c d t).2.2.1 ∧
    sizeInv (withChild q a b c d t).2.2.2 := by
  unfold withChild; split_ifs <;> exact ⟨by tauto, by tauto, by tauto,
    by tauto⟩

theorem insertB_massInv : ∀ (f : ℕ) (t : QNode) (b : PBody) (t' : QNode),
    insertB f t b = some t' → massInv t → massInv t' := by
  intro f
  induction f with
  | zero => intro t b t' h; cases h
  | succ f ih =>
    intro t b t' h hm
    have hper := insertB_perm (f + 1) t b t' h
    have hsum : ((treeBodies t').map PBody.mass).sum =
        b.mass + ((treeBodies t).map PBody.mass).sum := by
      have := (hper.map PBody.mass).sum_eq
      simpa using this
    cases t with
    | leafE c hh =>
      simp only [insertB] at h
      cases h
      trivial
    | leafB c hh e =>
      simp only [insertB] at h
      rw [Option.bind_eq_some] at h
      obtain ⟨t1, h1, h⟩ := h
      rw [Option.bind_eq_some] at h
      obtain ⟨t2, h2, h⟩ := h
      have hm1 : massInv t1 := ih _ _ _ h1 (massInv_childAt _
        ⟨massInv_leafE _ _, massInv_leafE _ _, massInv_leafE _ _,
          massInv_leafE _ _⟩)
      have hm2 : massInv t2 := ih _ _ _ h2 (massInv_childAt _
        (massInv_withChild _ ⟨massInv_leafE _ _, massInv_leafE _ _,
          massInv_leafE _ _, massInv_leafE _ _⟩ hm1))
      cases h
      refine ⟨?_,
        (massInv_withChild _ (massInv_withChild _ ⟨massInv_leafE _ _,
          massInv_leafE _ _, massInv_leafE _ _, massInv_leafE _ _⟩ hm1)
          hm2).1,
        (massInv_withChild _ (massInv_withChild _ ⟨massInv_leafE _ _,
          massInv_leafE _ _, massInv_leafE _ _, massInv_leafE _ _⟩ hm1)
          hm2).2.1,
        (massInv_withChild _ (massInv_withChild _ ⟨massInv_leafE _ _,
          massInv_leafE _ _, massInv_leafE _ _, massInv_leafE _ _⟩ hm1)
          hm2).2.2.1,
        (massInv_withChild _ (massInv_withChild _ ⟨massInv_leafE _ _,
          massInv_leafE _ _, massInv_leafE _ _, massInv_leafE _ _⟩ hm1)
          hm2).2.2.2⟩
      simp only [treeBodies, List.map_cons, List.map_nil, List.sum_cons,
        List.sum_nil] at hsum
      linarith
    | inner c hh com tm nw ne sw se =>
      obtain ⟨htm, hcs⟩ := hm
      simp only [insertB] at h
      rw [Option.bind_eq_some] at h
      obtain ⟨t1, h1, h⟩ := h
      have hm1 : massInv t1 := ih _ _ _ h1 (massInv_childAt _
        ⟨hcs.1, hcs.2.1, hcs.2.2.1, hcs.2.2.2⟩)
      have hk := massInv_withChild (getQuadrant c b.pos)
        ⟨hcs.1, hcs.2.1, hcs.2.2.1, hcs.2.2.2⟩ hm1
      cases h
      refine ⟨?_, hk.1, hk.2.1, hk.2.2.1, hk.2.2.2⟩
      simp only [treeBodies] at hsum ⊢
      linarith

theorem sizeInv_leafE (c : Vec2) (h : ℚ) (hp : 0 < h) :
    sizeInv (QNode.leafE c h) := hp

theorem insertB_sizeInv : ∀ (f : ℕ) (t : QNode) (b : PBody) (t' : QNode),
    insertB f t b = some t' → sizeInv t → sizeInv t' := by
  intro f
  induction f with
  | zero => intro t b t' h; cases h
  | succ f ih =>
    intro t b t' h hs
    cases t with
    | leafE c hh =>
      simp only [insertB] at h
      cases h
      exact hs
    | leafB c hh e =>
      have hh0 : 0 < hh := hs
      have hnh : 0 < hh * (1/2) := by linarith
      simp only [insertB] at h
      rw [Option.bind_eq_some] at h
      obtain ⟨t1, h1, h⟩ := h
      rw [Option.bind_eq_some] at h
      obtain ⟨t2, h2, h⟩ := h
      have hm1 : sizeInv t1 := ih _ _ _ h1 (sizeInv_childAt _
        ⟨sizeInv_leafE _ _ hnh, sizeInv_leafE _ _ hnh,
          sizeInv_leafE _ _ hnh, sizeInv_leafE _ _ hnh⟩)
      have hm2 : sizeInv t2 := ih _ _ _ h2 (sizeInv_childAt _
        (sizeInv_withChild _ ⟨sizeInv_leafE _ _ hnh, sizeInv_leafE _ _ hnh,
          sizeInv_leafE _ _ hnh, sizeInv_leafE _ _ hnh⟩ hm1))
      cases h
      exact ⟨hh0,
        (sizeInv_withChild _ (sizeInv_withChild _ ⟨sizeInv_leafE _ _ hnh,
          sizeInv_leafE _ _ hnh, sizeInv_leafE _ _ hnh,
          sizeInv_leafE _ _ hnh⟩ hm1) hm2).1,
        (sizeInv_withChild _ (sizeInv_withChild _ ⟨sizeInv_leafE _ _ hnh,
          sizeInv_leafE _ _ hnh, sizeInv_leafE _ _ hnh,
          sizeInv_leafE _ _ hnh⟩ hm1) hm2).2.1,
        (sizeInv_withChild _ (sizeInv_withChild _ ⟨sizeInv_leafE _ _ hnh,
          sizeInv_leafE _ _ hnh, sizeInv_leafE _ _ hnh,
          sizeInv_leafE _ _ hnh⟩ hm1) hm2).2.2.1,
        (sizeInv_withChild _ (sizeInv_withChild _ ⟨sizeInv_leafE _ _ hnh,
          sizeInv_leafE _ _ hnh, sizeInv_leafE _ _ hnh,
          sizeInv_leafE _ _ hnh⟩ hm1) hm2).2.2.2⟩
    | inner c hh com tm nw ne sw se =>
      obtain ⟨h0, hcs⟩ := hs
      simp only [insertB] at h
      rw [Option.bind_eq_some] at h
      obtain ⟨t1, h1, h⟩ := h
      have hm1 : sizeInv t1 := ih _ _ _ h1 (sizeInv_childAt _
        ⟨hcs.1, hcs.2.1, hcs.2.2.1, hcs.2.2.2⟩)
      have hk := sizeInv_withChild (getQuadrant c b.pos)
        ⟨hcs.1, hcs.2.1, hcs.2.2.1, hcs.2.2.2⟩ hm1
      cases h
      exact ⟨h0, hk.1, hk.2.1, hk.2.2.1, hk.2.2.2⟩

theorem list_mass_zero_of_sum_zero :
    ∀ (l : List PBody), (∀ b ∈ l, 0 ≤ b.mass) →
    (l.map PBody.mass).sum = 0 → ∀ b ∈ l, b.mass = 0 := by
  intro l
  induction l with
  | nil => simp
  | cons x l ih =>
    intro hn hs b hb
    simp only [List.map_cons, List.sum_cons] at hs
    have hx : 0 ≤ x.mass := hn x (by simp)
    have hl : 0 ≤ (l.map PBody.mass).sum := by
      apply List.sum_nonneg
      intro q hq
      obtain ⟨p, hp, rfl⟩ := List.mem_map.mp hq
      exact hn p (by simp [hp])
    have hx0 : x.mass = 0 := by linarith
    have hl0 : (l.map PBody.mass).sum = 0 := by linarith
    rcases List.mem_cons.mp hb with rfl | hbl
    · exact hx0
    · exact ih (fun q hq => hn q (by simp [hq])) hl0 b hbl

theorem directAcc_zero (p15 : ℚ → ℚ) (eps G W H : ℚ) (pos : Vec2)
    (mass : ℚ) (l : List PBody) (hz : ∀ b ∈ l, b.mass = 0) :
    directAcc p15 eps G W H pos mass l = 0 := by
  induction l with
  | nil => simp [directAcc]
  | cons x l ih =>
    have hx : x.mass = 0 := hz x (by simp)
    have hl := ih (fun q hq => hz q (by simp [hq]))
    simp only [directAcc, List.map_cons, List.sum_cons] at hl ⊢
    rw [hl]
    split_ifs <;> simp [vmul, hx]

theorem directAcc_append (p15 : ℚ → ℚ) (eps G W H : ℚ) (pos : Vec2)
    (mass : ℚ) (l1 l2 : List PBody) :
    directAcc p15 eps G W H pos mass (l1 ++ l2) =
      directAcc p15 eps G W H pos mass l1 +
        directAcc p15 eps G W H pos mass l2 := by
  simp [directAcc]

/-- At opening angle 0 the Barnes-Hut query never approximates: on any tree
with correct aggregate masses, positive cell sizes and nonnegative body
masses, it returns exactly the direct softened sum over the stored
bodies. -/
theorem calcAcc_theta0 (sq p15 : ℚ → ℚ) (eps G W H : ℚ) (pos : Vec2)
    (mass : ℚ) (hsq : ∀ x, 0 ≤ sq x) :
    ∀ t : QNode, massInv t → sizeInv t →
    (∀ b ∈ treeBodies t, 0 ≤ b.mass) →
    calcAcc sq p15 0 eps G W H pos mass t =
      directAcc p15 eps G W H pos mass (treeBodies t) := by
  intro t
  induction t with
  | leafE c h => intro _ _ _; simp [calcAcc, treeBodies, directAcc]
  | leafB c h b =>
    intro _ _ _
    simp only [calcAcc, treeBodies, directAcc, List.map_cons, List.map_nil,
      List.sum_cons, List.sum_nil, add_zero]
    by_cases hm0 : b.mass = 0
    · split_ifs <;> simp [vmul, hm0] <;> rfl
    · rw [if_neg hm0]
  | inner c h com tm nw ne sw se ihnw ihne ihsw ihse =>
    intro hmi hsi hnn
    obtain ⟨htm, hm4⟩ := hmi
    obtain ⟨hh0, hs4⟩ := hsi
    by_cases htm0 : tm = 0
    · have hz : ∀ b ∈ treeBodies (QNode.inner c h com tm nw ne sw se),
          b.mass = 0 := by
        apply list_mass_zero_of_sum_zero _ hnn
        simp only [treeBodies]
        rw [← htm]
        exact htm0
      rw [directAcc_zero _ _ _ _ _ _ _ _ hz]
      simp [calcAcc, htm0]
    · have hguard : ¬(0 < sq (lengthSq (minimumImage (com - pos) W H)) ∧
          h * 2 / sq (lengthSq (minimumImage (com - pos) W H)) < 0) := by
        rintro ⟨hr, hlt⟩
        have : 0 < h * 2 / sq (lengthSq (minimumImage (com - pos) W H)) :=
          div_pos (by linarith) hr
        linarith
      have hmem : ∀ (s : QNode),
          treeBodies s <+: treeBodies (QNode.inner c h com tm nw ne sw se) →
          True := fun _ _ => trivial
      have hnw : ∀ b ∈ treeBodies nw, 0 ≤ b.mass := fun b hb =>
        hnn b (by simp [treeBodies, hb])
      have hne : ∀ b ∈ treeBodies ne, 0 ≤ b.mass := fun b hb =>
        hnn b (by simp [treeBodies, hb])
      have hsw : ∀ b ∈ treeBodies sw, 0 ≤ b.mass := fun b hb =>
        hnn b (by simp [treeBodies, hb])
      have hse : ∀ b ∈ treeBodies se, 0 ≤ b.mass := fun b hb =>
        hnn b (by simp [treeBodies, hb])
      simp only [calcAcc, treeBodies]
      rw [if_neg htm0, if_neg hguard]
      rw [directAcc_append, directAcc_append, directAcc_append]
      rw [ihnw hm4.1 hs4.1 hnw, ihne hm4.2.1 hs4.2.1 hne,
        ihsw hm4.2.2.1 hs4.2.2.1 hsw, ihse hm4.2.2.2 hs4.2.2.2 hse]

/-- Along a left fold of inserts the tree keeps its invariants and holds
exactly the inserted bodies, up to permutation. -/
theorem buildFold_inv : ∀ (l : List PBody) (fuel : ℕ) (t0 t : QNode),
    List.foldlM (fun t b => insertB fuel t b) t0 l = some t →
    massInv t0 → sizeInv t0 →
    massInv t ∧ sizeInv t ∧
      List.Perm (treeBodies t) (treeBodies t0 ++ l) := by
  intro l
  induction l with
  | nil =>
    intro fuel t0 t h hm hs
    simp only [List.foldlM_nil] at h
    cases h
    exact ⟨hm, hs, by simp⟩
  | cons b l ih =>
    intro fuel t0 t h hm hs
    simp only [List.foldlM_cons] at h
    cases hob : insertB fuel t0 b with
    | none => simp [hob] at h
    | some t1 =>
      simp only [hob, Option.some_bind] at h
      have hm1 := insertB_massInv _ _ _ _ hob hm
      have hs1 := insertB_sizeInv _ _ _ _ hob hs
      have hp1 := insertB_perm _ _ _ _ hob
      obtain ⟨hmt, hst, hpt⟩ := ih fuel t1 t h hm1 hs1
      exact ⟨hmt, hst,
        hpt.trans ((hp1.append_right l).trans List.perm_middle.symm)⟩

/-- C3: whenever the quadtree build completes (it does for pairwise distinct
in-domain positions, see the termination theorem), the acceleration query at
opening angle `theta = 0` — where the opening criterion `s/d < theta` never
holds — equals the direct pairwise softened sum over all bodies, with
minimum-image displacements and the self term excluded (the tree's test:
same position and mass as the query).  `sq` is any nonnegative model of
`std::sqrt` and `p15` any model of `pow(-, 1.5f)`; body masses are
nonnegative as everywhere in the program. -/
theorem barnesHut_theta0_direct (fuel : ℕ) (bodies : List PBody)
    (W H eps G : ℚ) (pos : Vec2) (mass : ℚ) (sq p15 : ℚ → ℚ) (t : QNode)
    (hb : buildFuel fuel bodies W H = some t)
    (hm : ∀ b ∈ bodies, 0 ≤ b.mass)
    (hsq : ∀ x, 0 ≤ sq x)
    (hW : 0 < W) (hH : 0 < H) :
    calcAcc sq p15 0 eps G W H pos mass t =
      directAcc p15 eps G W H pos mass bodies := by
  unfold buildFuel at hb
  have hroot_s : sizeInv (QNode.leafE (W * (1/2), H * (1/2))
      (max W H * (1/2))) := by
    have hmx : (0 : ℚ) < max W H := lt_of_lt_of_le hW (le_max_left W H)
    show (0 : ℚ) < max W H * (1/2)
    linarith
  obtain ⟨hmt, hst, hpt⟩ := buildFold_inv bodies fuel _ t hb trivial hroot_s
  have hpt' : List.Perm (treeBodies t) bodies := by simpa using hpt
  have hmemt : ∀ b ∈ treeBodies t, 0 ≤ b.mass := fun b hbm =>
    hm b (hpt'.mem_iff.mp hbm)
  rw [calcAcc_theta0 sq p15 eps G W H pos mass hsq t hmt hst hmemt]
  unfold directAcc
  exact (hpt'.map _).sum_eq

/-- First body of the C3 witness configuration. -/
def wB1 : PBody := ⟨(1, 1), 1⟩

/-- Second body of the C3 witness configuration. -/
def wB2 : PBody := ⟨(3, 3), 2⟩

/-- The tree `buildFuel 3 [wB1, wB2] 4 4` constructs: root of half-size 2
around (2,2), subdivided once, with the two bodies in the NW and SE
children. -/
def wTree : QNode :=
  .inner (2, 2) 2 (7/3, 7/3) 3
    (.leafB (1, 1) 1 wB1) (.leafE (3, 1) 1) (.leafE (1, 3) 1)
    (.leafB (3, 3) 1 wB2)

/-- C3 witness: the theorem applied to the two-body configuration, with the
build evaluated concretely. -/
theorem barnesHut_theta0_direct_witness :
    calcAcc ratSqrt (fun x => x * ratSqrt x) 0 1 100 4 4 (2, 0) 5 wTree =
      directAcc (fun x => x * ratSqrt x) 1 100 4 4 (2, 0) 5 [wB1, wB2] :=
  barnesHut_theta0_direct 3 [wB1, wB2] 4 4 1 100 (2, 0) 5 ratSqrt
    (fun x => x * ratSqrt x) wTree
    (by norm_num [buildFuel, insertB, getQuadrant, childAt, withChild,
      vmul, vdiv, wB1, wB2, wTree])
    (by intro b hb
        rcases List.mem_cons.mp hb with rfl | hb
        · norm_num [wB1]
        · rcases List.mem_cons.mp hb with rfl | hb
          · norm_num [wB2]
          · cases hb)
    ratSqrt_nonneg (by norm_num) (by norm_num)

/-- Half-open square cell with center `c` and half-size `h`: the region a
quadtree node covers. -/
def inCell (c : Vec2) (h : ℚ) (p : Vec2) : Prop :=
  c.1 - h ≤ p.1 ∧ p.1 < c.1 + h ∧ c.2 - h ≤ p.2 ∧ p.2 < c.2 + h

/-- L-infinity distance of two points. -/
def dL (p q : Vec2) : ℚ := max |p.1 - q.1| |p.2 - q.2|

/-- Geometric well-formedness of a tree: positive cell sizes, each leaf body
inside its leaf's cell, and the four children of an internal node centered
and sized exactly as `subdivide` creates them. -/
def treeInv : QNode → Prop
  | .leafE _ h => 0 < h
  | .leafB c h b => 0 < h ∧ inCell c h b.pos
  | .inner c h _ _ nw ne sw se =>
      0 < h ∧
      nw.center = childCenter c h 0 ∧ nw.half = h * (1/2) ∧
      ne.center = childCenter c h 1 ∧ ne.half = h * (1/2) ∧
      sw.center = childCenter c h 2 ∧ sw.half = h * (1/2) ∧
      se.center = childCenter c h 3 ∧ se.half = h * (1/2) ∧
      treeInv nw ∧ treeInv ne ∧ treeInv sw ∧ treeInv se

/-- Height of the tree (0 at leaves). -/
def depth : QNode → ℕ
  | .leafE _ _ => 0
  | .leafB _ _ _ => 0
  | .inner _ _ _ _ nw ne sw se =>
      (max (max (depth nw) (depth ne)) (max (depth sw) (depth se))) + 1

/-- A point of a cell lies in the child cell its quadrant routes it to. -/
theorem route_in_child (c : Vec2) (h : ℚ) (p : Vec2) (hc : inCell c h p) :
    inCell (childCenter c h (getQuadrant c p)) (h * (1/2)) p := by
  obtain ⟨h1, h2, h3, h4⟩ := hc
  by_cases hx : c.1 ≤ p.1 <;> by_cases hy : c.2 ≤ p.2 <;>
  · simp only [getQuadrant, childCenter, inCell, ge_iff_le, hx, hy,
      if_true, if_false, not_le.mpr]
    norm_num
    refine ⟨by linarith, by linarith, by linarith, by linarith⟩

/-- Two points of one cell are closer than the cell's side length in the
L-infinity metric. -/
theorem same_cell_dL_lt (c : Vec2) (h : ℚ) (p q : Vec2)
    (hp : inCell c h p) (hq : inCell c h q) : dL p q < 2 * h := by
  obtain ⟨a1, a2, a3, a4⟩ := hp
  obtain ⟨b1, b2, b3, b4⟩ := hq
  unfold dL
  apply max_lt <;> rw [abs_sub_lt_iff] <;> constructor <;> linarith

/-- Distinct points are at positive L-infinity distance. -/
theorem dL_pos (p q : Vec2) (hne : p ≠ q) : 0 < dL p q := by
  by_contra hcon
  push_neg at hcon
  apply hne
  have hx : |p.1 - q.1| ≤ 0 := le_trans (le_max_left _ _) hcon
  have hy : |p.2 - q.2| ≤ 0 := le_trans (le_max_right _ _) hcon
  have hx0 : p.1 - q.1 = 0 := abs_eq_zero.mp (le_antisymm hx (abs_nonneg _))
  have hy0 : p.2 - q.2 = 0 := abs_eq_zero.mp (le_antisymm hy (abs_nonneg _))
  exact Prod.ext (by linarith) (by linarith)

/-- The child `subdivide` creates at quadrant `q < 4` of a cell `(c, h)`. -/
theorem childAt_kids0 (c : Vec2) (h : ℚ) (q : ℕ) (hq : q < 4) :
    childAt q (QNode.leafE (c.1 - h * (1/2), c.2 - h * (1/2)) (h * (1/2)))
      (QNode.leafE (c.1 + h * (1/2), c.2 - h * (1/2)) (h * (1/2)))
      (QNode.leafE (c.1 - h * (1/2), c.2 + h * (1/2)) (h * (1/2)))
      (QNode.leafE (c.1 + h * (1/2), c.2 + h * (1/2)) (h * (1/2))) =
    QNode.leafE (childCenter c h q) (h * (1/2)) := by
  interval_cases q <;> simp [childAt, childCenter]

/-- One more unit of insertion fuel never changes a successful insert. -/
theorem insertB_mono : ∀ (f : ℕ) (t : QNode) (b : PBody) (t' : QNode),
    insertB f t b = some t' → insertB (f + 1) t b = some t' := by
  intro f
  induction f with
  | zero => intro t b t' h; cases h
  | succ f ih =>
    intro t b t' h
    cases t with
    | leafE c hh =>
      simp only [insertB] at h ⊢
      exact h
    | leafB c hh e =>
      simp only [insertB] at h ⊢
      cases h1 : insertB f (childAt (getQuadrant c e.pos)
          (QNode.leafE (c.1 - hh * (1/2), c.2 - hh * (1/2)) (hh * (1/2)))
          (QNode.leafE (c.1 + hh * (1/2), c.2 - hh * (1/2)) (hh * (1/2)))
          (QNode.leafE (c.1 - hh * (1/2), c.2 + hh * (1/2)) (hh * (1/2)))
          (QNode.leafE (c.1 + hh * (1/2), c.2 + hh * (1/2)) (hh * (1/2))))
          e with
      | none => rw [h1] at h; simp at h
      | some t1 =>
        rw [h1] at h
        rw [ih _ _ _ h1]
        simp only [Option.some_bind] at h ⊢
        cases h2 : insertB f (childAt (getQuadrant c b.pos) _ _ _ _) b with
        | none => rw [h2] at h; simp at h
        | some t2 =>
          rw [h2] at h
          rw [ih _ _ _ h2]
          simpa using h
    | inner c hh com tm nw ne sw se =>
      simp only [insertB] at h ⊢
      cases h1 : insertB f (childAt (getQuadrant c b.pos) nw ne sw se)
          b with
      | none => rw [h1] at h; simp at h
      | some t1 =>
        rw [h1] at h
        rw [ih _ _ _ h1]
        simpa using h

/-- Fuel monotonicity of `insertB`. -/
theorem insertB_mono_le (f f' : ℕ) (hle : f ≤ f') (t : QNode) (b : PBody)
    (t' : QNode) (h : insertB f t b = some t') :
    insertB f' t b = some t' := by
  induction f', hle using Nat.le_induction with
  | base => exact h
  | succ n hn ih => exact insertB_mono n t b t' ih

theorem childAt_withChild (q : ℕ) (a b c d t : QNode) :
    childAt q (withChild q a b c d t).1 (withChild q a b c d t).2.1
      (withChild q a b c d t).2.2.1 (withChild q a b c d t).2.2.2 = t := by
  unfold childAt withChild
  split_ifs <;> rfl

theorem childAt_withChild_ne (q q' : ℕ) (hq4 : q < 4) (hq'4 : q' < 4)
    (hne : q ≠ q') (a b c d t : QNode) :
    childAt q (withChild q' a b c d t).1 (withChild q' a b c d t).2.1
      (withChild q' a b c d t).2.2.1 (withChild q' a b c d t).2.2.2 =
    childAt q a b c d := by
  unfold childAt withChild
  split_ifs <;> first | rfl | omega

/-- Two distinct bodies in one occupied leaf cell get separated by the
subdivide-and-reinsert recursion after finitely many levels: the insert
succeeds on fuel `f + 2` once `2^f` covers the ratio of cell side to the
bodies' L-infinity distance. -/
theorem insert_two_ok : ∀ (f : ℕ) (c : Vec2) (h : ℚ) (e b : PBody),
    0 < h → inCell c h e.pos → inCell c h b.pos → b.pos ≠ e.pos →
    2 * h ≤ 2 ^ f * dL b.pos e.pos →
    ∃ t', insertB (f + 2) (QNode.leafB c h e) b = some t' := by
  intro f
  induction f with
  | zero =>
    intro c h e b h0 he hb hne hf
    exfalso
    have hlt := same_cell_dL_lt c h b.pos e.pos hb he
    norm_num at hf
    linarith
  | succ f ih =>
    intro c h e b h0 he hb hne hf
    have h4e := getQuadrant_lt_four c e.pos
    have h4b := getQuadrant_lt_four c b.pos
    have hh2 : 0 < h * (1/2) := by linarith
    simp only [insertB]
    rw [childAt_kids0 c h _ h4e]
    simp only [insertB, Option.some_bind]
    by_cases hq : getQuadrant c b.pos = getQuadrant c e.pos
    · rw [hq, childAt_withChild]
      have hre := route_in_child c h e.pos he
      have hrb := route_in_child c h b.pos hb
      rw [hq] at hrb
      have hf2 : 2 * (h * (1/2)) ≤ 2 ^ f * dL b.pos e.pos := by
        have hpow : (2 : ℚ) ^ (f + 1) * dL b.pos e.pos =
            2 * (2 ^ f * dL b.pos e.pos) := by ring
        rw [hpow] at hf
        linarith
      obtain ⟨t', ht'⟩ := ih (childCenter c h (getQuadrant c e.pos))
        (h * (1/2)) e b hh2 hre hrb hne hf2
      rw [ht']
      exact ⟨_, rfl⟩
    · rw [childAt_withChild_ne _ _ h4b h4e hq, childAt_kids0 c h _ h4b]
      simp only [insertB, Option.some_bind]
      exact ⟨_, rfl⟩

/-- What an internal node requires of the child in slot `i`: the subdivide
center, half the parent size, and well-formedness. -/
def slotGeom (c : Vec2) (h : ℚ) (i : ℕ) (t : QNode) : Prop :=
  QNode.center t = childCenter c h i ∧ QNode.half t = h * (1/2) ∧ treeInv t

theorem treeInv_inner_iff (c : Vec2) (h : ℚ) (com : Vec2) (tm : ℚ)
    (nw ne sw se : QNode) :
    treeInv (.inner c h com tm nw ne sw se) ↔
      0 < h ∧ slotGeom c h 0 nw ∧ slotGeom c h 1 ne ∧
        slotGeom c h 2 sw ∧ slotGeom c h 3 se := by
  show (0 < h ∧ _) ↔ _
  unfold slotGeom
  tauto

theorem slotGeom_childAt (q : ℕ) (hq : q < 4) (c : Vec2) (h : ℚ)
    {a b0 c0 d : QNode}
    (h0 : slotGeom c h 0 a) (h1 : slotGeom c h 1 b0)
    (h2 : slotGeom c h 2 c0) (h3 : slotGeom c h 3 d) :
    slotGeom c h q (childAt q a b0 c0 d) := by
  unfold childAt
  split_ifs with e0 e1 e2
  · subst e0; exact h0
  · subst e1; exact h1
  · subst e2; exact h2
  · have e3 : q = 3 := by omega
    subst e3; exact h3

theorem slotGeom_withChild (q : ℕ) (hq : q < 4) (c : Vec2) (h : ℚ)
    {a b0 c0 d t : QNode}
    (h0 : slotGeom c h 0 a) (h1 : slotGeom c h 1 b0)
    (h2 : slotGeom c h 2 c0) (h3 : slotGeom c h 3 d)
    (ht : slotGeom c h q t) :
    slotGeom c h 0 (withChild q a b0 c0 d t).1 ∧
    slotGeom c h 1 (withChild q a b0 c0 d t).2.1 ∧
    slotGeom c h 2 (withChild q a b0 c0 d t).2.2.1 ∧
    slotGeom c h 3 (withChild q a b0 c0 d t).2.2.2 := by
  unfold withChild
  split_ifs with e0 e1 e2
  · subst e0; exact ⟨ht, h1, h2, h3⟩
  · subst e1; exact ⟨h0, ht, h2, h3⟩
  · subst e2; exact ⟨h0, h1, ht, h3⟩
  · have e3 : q = 3 := by omega
    subst e3; exact ⟨h0, h1, h2, ht⟩

theorem slotGeom_kids0 (c : Vec2) (h : ℚ) (hh : 0 < h) :
    slotGeom c h 0
      (QNode.leafE (c.1 - h * (1/2), c.2 - h * (1/2)) (h * (1/2))) ∧
    slotGeom c h 1
      (QNode.leafE (c.1 + h * (1/2), c.2 - h * (1/2)) (h * (1/2))) ∧
    slotGeom c h 2
      (QNode.leafE (c.1 - h * (1/2), c.2 + h * (1/2)) (h * (1/2))) ∧
    slotGeom c h 3
      (QNode.leafE (c.1 + h * (1/2), c.2 + h * (1/2)) (h * (1/2))) := by
  have hp : (0 : ℚ) < h * (1/2) := by linarith
  refine ⟨⟨?_, rfl, hp⟩, ⟨?_, rfl, hp⟩, ⟨?_, rfl, hp⟩, ⟨?_, rfl, hp⟩⟩ <;>
    simp [childCenter, QNode.center]

/-- Inserting a contained body into a well-formed tree keeps the tree
well-formed and preserves the root cell. -/
theorem insertB_treeInv : ∀ (f : ℕ) (t : QNode) (b : PBody) (t' : QNode),
    insertB f t b = some t' → treeInv t →
    inCell (QNode.center t) (QNode.half t) b.pos →
    treeInv t' ∧ QNode.center t' = QNode.center t ∧
      QNode.half t' = QNode.half t := by
  intro f
  induction f with
  | zero => intro t b t' h; cases h
  | succ f ih =>
    intro t b t' h hinv hin
    cases t with
    | leafE c hh =>
      simp only [insertB] at h
      cases h
      exact ⟨⟨hinv, hin⟩, rfl, rfl⟩
    | leafB c hh e =>
      obtain ⟨hh0, hein⟩ := hinv
      have hin' : inCell c hh b.pos := hin
      have h4e := getQuadrant_lt_four c e.pos
      have h4b := getQuadrant_lt_four c b.pos
      obtain ⟨k00, k01, k02, k03⟩ := slotGeom_kids0 c hh hh0
      simp only [insertB] at h
      rw [Option.bind_eq_some] at h
      obtain ⟨t1, h1, h⟩ := h
      rw [Option.bind_eq_some] at h
      obtain ⟨t2, h2, h⟩ := h
      have hs1 := slotGeom_childAt _ h4e c hh k00 k01 k02 k03
      have hr1 := route_in_child c hh e.pos hein
      have ht1 := ih _ _ _ h1 hs1.2.2 (by rw [hs1.1, hs1.2.1]; exact hr1)
      have hslot1 : slotGeom c hh (getQuadrant c e.pos) t1 :=
        ⟨by rw [ht1.2.1, hs1.1], by rw [ht1.2.2, hs1.2.1], ht1.1⟩
      obtain ⟨w0, w1, w2, w3⟩ := slotGeom_withChild _ h4e c hh
        k00 k01 k02 k03 hslot1
      have hs2 := slotGeom_childAt _ h4b c hh w0 w1 w2 w3
      have hr2 := route_in_child c hh b.pos hin'
      have ht2 := ih _ _ _ h2 hs2.2.2 (by rw [hs2.1, hs2.2.1]; exact hr2)
      have hslot2 : slotGeom c hh (getQuadrant c b.pos) t2 :=
        ⟨by rw [ht2.2.1, hs2.1], by rw [ht2.2.2, hs2.2.1], ht2.1⟩
      obtain ⟨v0, v1, v2, v3⟩ := slotGeom_withChild _ h4b c hh
        w0 w1 w2 w3 hslot2
      cases h
      exact ⟨(treeInv_inner_iff _ _ _ _ _ _ _ _).mpr ⟨hh0, v0, v1, v2, v3⟩,
        rfl, rfl⟩
    | inner c hh com tm nw ne sw se =>
      obtain ⟨hh0, s0, s1, s2, s3⟩ :=
        (treeInv_inner_iff _ _ _ _ _ _ _ _).mp hinv
      have hin' : inCell c hh b.pos := hin
      have h4 := getQuadrant_lt_four c b.pos
      simp only [insertB] at h
      rw [Option.bind_eq_some] at h
      obtain ⟨t1, h1, h⟩ := h
      have hsc := slotGeom_childAt _ h4 c hh s0 s1 s2 s3
      have hr := route_in_child c hh b.pos hin'
      have ht1 := ih _ _ _ h1 hsc.2.2 (by rw [hsc.1, hsc.2.1]; exact hr)
      have hslot : slotGeom c hh (getQuadrant c b.pos) t1 :=
        ⟨by rw [ht1.2.1, hsc.1], by rw [ht1.2.2, hsc.2.1], ht1.1⟩
      obtain ⟨v0, v1, v2, v3⟩ := slotGeom_withChild _ h4 c hh
        s0 s1 s2 s3 hslot
      cases h
      exact ⟨(treeInv_inner_iff _ _ _ _ _ _ _ _).mpr ⟨hh0, v0, v1, v2, v3⟩,
        rfl, rfl⟩

theorem depth_childAt_le (q : ℕ) (nw ne sw se : QNode) :
    depth (childAt q nw ne sw se) ≤
      max (max (depth nw) (depth ne)) (max (depth sw) (depth se)) := by
  unfold childAt
  split_ifs
  · exact le_trans (Nat.le_max_left _ _) (Nat.le_max_left _ _)
  · exact le_trans (Nat.le_max_right _ _) (Nat.le_max_left _ _)
  · exact le_trans (Nat.le_max_left _ _) (Nat.le_max_right _ _)
  · exact le_trans (Nat.le_max_right _ _) (Nat.le_max_right _ _)

theorem mem_treeBodies_childAt (q : ℕ) (hq : q < 4) (nw ne sw se : QNode)
    (e : PBody) (he : e ∈ treeBodies (childAt q nw ne sw se)) :
    e ∈ treeBodies nw ++ treeBodies ne ++ treeBodies sw ++ treeBodies se := by
  unfold childAt at he
  split_ifs at he <;> simp [he]

/-- Inserting a body into a well-formed tree succeeds, given fuel covering
the tree's depth plus the separation levels needed against every stored
body. -/
theorem insert_ok : ∀ (t : QNode) (b : PBody) (f : ℕ),
    treeInv t → inCell (QNode.center t) (QNode.half t) b.pos →
    (∀ e ∈ treeBodies t, b.pos ≠ e.pos ∧
      2 * QNode.half t ≤ 2 ^ f * dL b.pos e.pos) →
    ∃ t', insertB (depth t + f + 2) t b = some t' := by
  intro t
  induction t with
  | leafE c hh =>
    intro b f _ _ _
    exact ⟨QNode.leafB c hh b, by simp [insertB, depth]⟩
  | leafB c hh e =>
    intro b f hinv hin hsep
    obtain ⟨hbne, hbf⟩ := hsep e (by simp [treeBodies])
    obtain ⟨t', ht'⟩ := insert_two_ok f c hh e b hinv.1 hinv.2 hin hbne hbf
    exact ⟨t', by simpa [depth] using ht'⟩
  | inner c hh com tm nw ne sw se ihnw ihne ihsw ihse =>
    intro b f hinv hin hsep
    obtain ⟨hh0, s0, s1, s2, s3⟩ :=
      (treeInv_inner_iff _ _ _ _ _ _ _ _).mp hinv
    have hin' : inCell c hh b.pos := hin
    have h4 := getQuadrant_lt_four c b.pos
    have hsc := slotGeom_childAt _ h4 c hh s0 s1 s2 s3
    have hr := route_in_child c hh b.pos hin'
    have hsep' : ∀ e ∈ treeBodies (childAt (getQuadrant c b.pos)
        nw ne sw se), b.pos ≠ e.pos ∧
        2 * QNode.half (childAt (getQuadrant c b.pos) nw ne sw se) ≤
          2 ^ f * dL b.pos e.pos := by
      intro e he
      have hmem := mem_treeBodies_childAt _ h4 nw ne sw se e he
      obtain ⟨hne, hb⟩ := hsep e hmem
      refine ⟨hne, ?_⟩
      rw [hsc.2.1]
      have hht : (2 : ℚ) * hh ≤ 2 ^ f * dL b.pos e.pos := hb
      linarith
    have hchild : ∃ t1, insertB (depth (childAt (getQuadrant c b.pos)
        nw ne sw se) + f + 2) (childAt (getQuadrant c b.pos) nw ne sw se) b
        = some t1 := by
      have hq := h4
      set q := getQuadrant c b.pos with hqdef
      interval_cases q
      · simp only [childAt, reduceIte] at hsep' ⊢
        exact ihnw b f s0.2.2 (by rw [← s0.1, ← s0.2.1] at hr; exact hr)
          hsep'
      · simp only [childAt, reduceIte] at hsep' ⊢
        exact ihne b f s1.2.2 (by rw [← s1.1, ← s1.2.1] at hr; exact hr)
          hsep'
      · simp only [childAt, reduceIte] at hsep' ⊢
        exact ihsw b f s2.2.2 (by rw [← s2.1, ← s2.2.1] at hr; exact hr)
          hsep'
      · simp only [childAt, reduceIte] at hsep' ⊢
        exact ihse b f s3.2.2 (by rw [← s3.1, ← s3.2.1] at hr; exact hr)
          hsep'
    obtain ⟨t1, ht1⟩ := hchild
    have hlt : depth (childAt (getQuadrant c b.pos) nw ne sw se) + f + 2 ≤
        depth (QNode.inner c hh com tm nw ne sw se) + f + 1 := by
      have := depth_childAt_le (getQuadrant c b.pos) nw ne sw se
      simp only [depth]
      omega
    have ht1' := insertB_mono_le _ _ hlt _ _ _ ht1
    refine ⟨QNode.inner c hh
        (if tm + b.mass > 0
          then vdiv (vmul com tm + vmul b.pos b.mass) (tm + b.mass)
          else com)
        (tm + b.mass)
        (withChild (getQuadrant c b.pos) nw ne sw se t1).1
        (withChild (getQuadrant c b.pos) nw ne sw se t1).2.1
        (withChild (getQuadrant c b.pos) nw ne sw se t1).2.2.1
        (withChild (getQuadrant c b.pos) nw ne sw se t1).2.2.2, ?_⟩
    simp only [insertB]
    rw [ht1']
    rfl

/-- Finitely many positive L-infinity distances admit a common power of two
covering any bound. -/
theorem exists_sep_fuel (l : List PBody) (p : Vec2) (bound : ℚ)
    (hne : ∀ e ∈ l, p ≠ e.pos) :
    ∃ f : ℕ, ∀ e ∈ l, bound ≤ 2 ^ f * dL p e.pos := by
  induction l with
  | nil => exact ⟨0, by simp⟩
  | cons x l ih =>
    obtain ⟨f', hf'⟩ := ih (fun e he => hne e (by simp [he]))
    have hdx : 0 < dL p x.pos := dL_pos _ _ (hne x (by simp))
    obtain ⟨n, hn⟩ :=
      pow_unbounded_of_one_lt (α := ℚ) (bound / dL p x.pos) one_lt_two
    refine ⟨max n f', ?_⟩
    intro e he
    rcases List.mem_cons.mp he with rfl | hel
    · have hb : bound < 2 ^ n * dL p e.pos := by
        rw [div_lt_iff₀ hdx] at hn
        linarith
      have hmono : (2 : ℚ) ^ n ≤ 2 ^ max n f' :=
        pow_le_pow_right₀ one_le_two (Nat.le_max_left n f')
      have := mul_le_mul_of_nonneg_right hmono (le_of_lt hdx)
      linarith
    · have hb := hf' e hel
      have hd0 : 0 ≤ dL p e.pos := le_trans (abs_nonneg _) (le_max_left _ _)
      have hmono : (2 : ℚ) ^ f' ≤ 2 ^ max n f' :=
        pow_le_pow_right₀ one_le_two (Nat.le_max_right n f')
      have := mul_le_mul_of_nonneg_right hmono hd0
      linarith

/-- Fuel monotonicity of the whole build fold. -/
theorem foldlM_insertB_mono : ∀ (l : List PBody) (f f' : ℕ), f ≤ f' →
    ∀ (t0 t : QNode),
    List.foldlM (fun t b => insertB f t b) t0 l = some t →
    List.foldlM (fun t b => insertB f' t b) t0 l = some t := by
  intro l
  induction l with
  | nil =>
    intro f f' _ t0 t h
    exact h
  | cons b l ih =>
    intro f f' hle t0 t h
    simp only [List.foldlM_cons] at h ⊢
    cases hob : insertB f t0 b with
    | none => rw [hob] at h; simp at h
    | some t1 =>
      rw [hob] at h
      rw [insertB_mono_le f f' hle _ _ _ hob]
      exact ih f f' hle t1 t h

/-- Inserting any list of pairwise-distinct bodies contained in the root
cell of a well-formed tree succeeds for some fuel, preserving the
invariants and collecting exactly those bodies. -/
theorem build_aux : ∀ (l : List PBody) (t0 : QNode),
    treeInv t0 →
    (∀ b ∈ l, inCell (QNode.center t0) (QNode.half t0) b.pos) →
    (treeBodies t0 ++ l).Pairwise (fun a b => a.pos ≠ b.pos) →
    ∃ f t, List.foldlM (fun t b => insertB f t b) t0 l = some t ∧
      treeInv t ∧ QNode.center t = QNode.center t0 ∧
      QNode.half t = QNode.half t0 := by
  intro l
  induction l with
  | nil =>
    intro t0 hinv0 hin hpw
    exact ⟨0, t0, rfl, hinv0, rfl, rfl⟩
  | cons b l ih =>
    intro t0 hinv hin hpw
    have hpw' := (List.pairwise_append.mp hpw)
    have hbne : ∀ e ∈ treeBodies t0, b.pos ≠ e.pos := by
      intro e he
      exact (hpw'.2.2 e he b (by simp)).symm
    obtain ⟨f1, hf1⟩ := exists_sep_fuel (treeBodies t0) b.pos
      (2 * QNode.half t0) hbne
    obtain ⟨t1, ht1⟩ := insert_ok t0 b f1 hinv (hin b (by simp))
      (fun e he => ⟨hbne e he, hf1 e he⟩)
    obtain ⟨hi1, hc1, hh1⟩ := insertB_treeInv _ _ _ _ ht1 hinv
      (hin b (by simp))
    have hp1 := insertB_perm _ _ _ _ ht1
    have hin1 : ∀ x ∈ l, inCell (QNode.center t1) (QNode.half t1) x.pos := by
      intro x hx
      rw [hc1, hh1]
      exact hin x (by simp [hx])
    have hpw1 : (treeBodies t1 ++ l).Pairwise
        (fun a b => a.pos ≠ b.pos) := by
      have hsym : Symmetric (fun a b : PBody => a.pos ≠ b.pos) :=
        fun _ _ hxy => hxy.symm
      have hperm : List.Perm (treeBodies t1 ++ l)
          (treeBodies t0 ++ b :: l) := by
        have h1 : List.Perm (treeBodies t1 ++ l)
            ((b :: treeBodies t0) ++ l) := hp1.append_right l
        exact h1.trans List.perm_middle.symm
      exact (hperm.pairwise_iff (fun hab => hsym hab)).mpr hpw
    obtain ⟨f2, t, hfold, hit, hct, hht⟩ := ih t1 hi1 hin1 hpw1
    refine ⟨max (depth t0 + f1 + 2) f2, t, ?_, hit, by rw [hct, hc1],
      by rw [hht, hh1]⟩
    simp only [List.foldlM_cons]
    rw [insertB_mono_le _ _ (Nat.le_max_left _ _) _ _ _ ht1]
    exact foldlM_insertB_mono l f2 _ (Nat.le_max_right _ _) t1 t hfold

/-- C10: QuadTree::build terminates — the subdivide-and-reinsert recursion
of insert reaches only finite depth — for every finite list of bodies whose
positions are pairwise distinct and lie in the root square
`[0, max W H) x [0, max W H)`-cell centered at the domain center (bodies at
coincident positions, or outside that cell, are not covered). -/
theorem quadtree_build_terminates (bodies : List PBody) (W H : ℚ)
    (hW : 0 < W) (hH : 0 < H)
    (hdist : bodies.Pairwise (fun a b => a.pos ≠ b.pos))
    (hin : ∀ b ∈ bodies,
      inCell (W * (1/2), H * (1/2)) (max W H * (1/2)) b.pos) :
    ∃ fuel t, buildFuel fuel bodies W H = some t := by
  have hroot : treeInv (QNode.leafE (W * (1/2), H * (1/2))
      (max W H * (1/2))) := by
    show (0 : ℚ) < max W H * (1/2)
    have hmx : (0 : ℚ) < max W H := lt_of_lt_of_le hW (le_max_left W H)
    linarith
  obtain ⟨f, t, hfold, _, _, _⟩ := build_aux bodies
    (QNode.leafE (W * (1/2), H * (1/2)) (max W H * (1/2))) hroot
    (fun b hb => hin b hb) (by simpa [treeBodies] using hdist)
  exact ⟨f, t, hfold⟩

/-- C10 witness: the termination theorem applied to the two-body
configuration of the C3 witness. -/
theorem quadtree_build_terminates_witness :
    ∃ fuel t, buildFuel fuel [wB1, wB2] 4 4 = some t :=
  quadtree_build_terminates [wB1, wB2] 4 4 (by norm_num) (by norm_num)
    (by simp [wB1, wB2, Prod.ext_iff])
    (by intro b hb
        rcases List.mem_cons.mp hb with rfl | hb
        · norm_num [wB1, inCell]
        · rcases List.mem_cons.mp hb with rfl | hb
          · norm_num [wB2, inCell]
          · cases hb)

/-! ### Collision detection (CollisionDetector, collision.cpp) -/

/-- CollisionDetector::getMinimumImagePos (collision.cpp): nearest periodic
image of `pos` relative to `reference`. -/
def getMinimumImagePos (W H : ℚ) (pos reference : Vec2) : Vec2 :=
  reference + minimumImage (pos - reference) W H

/-- The displacement CollisionDetector::checkCollision measures: the second
position is replaced by its minimum image exactly when both bodies wrap. -/
def pairDisp (W H : ℚ) (posA posB : Vec2) (wrapsA wrapsB : Bool) : Vec2 :=
  (if wrapsA && wrapsB then getMinimumImagePos W H posB posA else posB) - posA

/-- The radius-overlap test of CollisionDetector::checkCollision: squared
distance below the squared radius sum (the C++ `dist2 < minDist * minDist`;
for nonnegative radii this is `distance < radiusA + radiusB`). -/
def overlaps (W H : ℚ) (posA posB : Vec2) (wrapsA wrapsB : Bool)
    (rA rB : ℚ) : Prop :=
  lengthSq (pairDisp W H posA posB wrapsA wrapsB) < (rA + rB) * (rA + rB)

instance (W H : ℚ) (posA posB : Vec2) (wA wB : Bool) (rA rB : ℚ) :
    Decidable (overlaps W H posA posB wA wB rA rB) := by
  unfold overlaps; infer_instance

/-- CollisionDetector::checkCollision (collision.cpp): the overlap flag and
the distance `sqrt(dist2)` written to `outDistance` (`std::sqrt` is the
oracle `sq`). -/
def checkCollision (sq : ℚ → ℚ) (W H : ℚ) (posA posB : Vec2)
    (wrapsA wrapsB : Bool) (radiusA radiusB : ℚ) : Bool × ℚ :=
  let posB2 := if wrapsA && wrapsB then getMinimumImagePos W H posB posA
               else posB
  let dr := posB2 - posA
  let dist2 := lengthSq dr
  let minDist := radiusA + radiusB
  (decide (dist2 < minDist * minDist), sq dist2)

theorem checkCollision_fst (sq : ℚ → ℚ) (W H : ℚ) (posA posB : Vec2)
    (wA wB : Bool) (rA rB : ℚ) :
    (checkCollision sq W H posA posB wA wB rA rB).1 = true ↔
      overlaps W H posA posB wA wB rA rB := by
  simp [checkCollision, overlaps, pairDisp]

theorem checkCollision_snd (sq : ℚ → ℚ) (W H : ℚ) (posA posB : Vec2)
    (wA wB : Bool) (rA rB : ℚ) :
    (checkCollision sq W H posA posB wA wB rA rB).2 =
      sq (lengthSq (pairDisp W H posA posB wA wB)) := rfl

/-- The accretion distance computed by the black-hole pass of
detectCollisions (collision.cpp): length of the displacement to the black
hole, minimum-imaged exactly when the body wraps. -/
def accDist (sq : ℚ → ℚ) (W H : ℚ) (pos bhPos : Vec2) (wraps : Bool) : ℚ :=
  sq (lengthSq (if wraps then minimumImage (pos - bhPos) W H
                else pos - bhPos))

/-- Which engine collection a detected body came from, by index (the C++
CollisionPair stores `Body*` pointers into the per-type vectors). -/
inductive ERef where
  | ship (i : ℕ)
  | ast (i : ℕ)
  | bullet (i : ℕ)
  | bh (i : ℕ)
deriving DecidableEq

/-- CollisionPair (collision.h): the two bodies and the recorded distance. -/
structure CPair where
  a : ERef
  b : ERef
  dist : ℚ
deriving DecidableEq

/-- Membership in a guarded double loop over two indexed collections — the
shape shared by all passes of detectCollisions (the C++ `continue`
statements become guard conjuncts). -/
theorem mem_pairScan {α β : Type} (A : List α) (B : List β)
    (g : ℕ × α → ℕ × β → Bool) (e : ℕ × α → ℕ × β → CPair) (p : CPair) :
    (p ∈ A.enum.flatMap fun x => B.enum.filterMap fun y =>
        if g x y then some (e x y) else none) ↔
      ∃ i a j b, A[i]? = some a ∧ B[j]? = some b ∧
        g (i, a) (j, b) = true ∧ p = e (i, a) (j, b) := by
  rw [List.mem_flatMap]
  constructor
  · rintro ⟨⟨i, a⟩, hA, hp⟩
    rw [List.mem_enum_iff_getElem?] at hA
    rw [List.mem_filterMap] at hp
    obtain ⟨⟨j, b⟩, hB, he⟩ := hp
    rw [List.mem_enum_iff_getElem?] at hB
    split_ifs at he with hg
    exact ⟨i, a, j, b, hA, hB, hg, (Option.some_inj.mp he).symm⟩
  · rintro ⟨i, a, j, b, hA, hB, hg, rfl⟩
    refine ⟨(i, a), List.mem_enum_iff_getElem?.mpr hA, ?_⟩
    rw [List.mem_filterMap]
    exact ⟨(j, b), List.mem_enum_iff_getElem?.mpr hB, by rw [if_pos hg]⟩

/-- Membership distributes over a per-element three-way concatenation (the
black-hole pass runs three inner loops per black hole). -/
theorem mem_flatMapThree {α γ : Type} (l : List α) (f g h : α → List γ)
    (p : γ) :
    (p ∈ l.flatMap fun x => f x ++ (g x ++ h x)) ↔
      (p ∈ l.flatMap f) ∨ ((p ∈ l.flatMap g) ∨ (p ∈ l.flatMap h)) := by
  simp only [List.mem_flatMap, List.mem_append]
  constructor
  · rintro ⟨x, hx, hp | hp | hp⟩
    · exact Or.inl ⟨x, hx, hp⟩
    · exact Or.inr (Or.inl ⟨x, hx, hp⟩)
    · exact Or.inr (Or.inr ⟨x, hx, hp⟩)
  · rintro (⟨x, hx, hp⟩ | ⟨x, hx, hp⟩ | ⟨x, hx, hp⟩)
    · exact ⟨x, hx, Or.inl hp⟩
    · exact ⟨x, hx, Or.inr (Or.inl hp)⟩
    · exact ⟨x, hx, Or.inr (Or.inr hp)⟩

/-- Ship-asteroid pass of detectCollisions (collision.cpp): inactive or
invulnerable ships and inactive asteroids are skipped, remaining pairs are
radius-tested. -/
def shipAstPass (sq : ℚ → ℚ) (W H : ℚ) (ships : List Ship)
    (asteroids : List Asteroid) : List CPair :=
  ships.enum.flatMap fun si =>
    asteroids.enum.filterMap fun aj =>
      if si.2.active && !si.2.invulnerable && aj.2.active &&
          (checkCollision sq W H si.2.pos aj.2.pos si.2.wraps aj.2.wraps
             si.2.radius aj.2.radius).1 then
        some ⟨ERef.ship si.1, ERef.ast aj.1,
              (checkCollision sq W H si.2.pos aj.2.pos si.2.wraps aj.2.wraps
                 si.2.radius aj.2.radius).2⟩
      else none

/-- Ship-ship pass of detectCollisions (collision.cpp): ordered index pairs
`i < j`, both ships active. -/
def shipShipPass (sq : ℚ → ℚ) (W H : ℚ) (ships : List Ship) : List CPair :=
  ships.enum.flatMap fun si =>
    ships.enum.filterMap fun sj =>
      if si.2.active && decide (si.1 < sj.1) && sj.2.active &&
          (checkCollision sq W H si.2.pos sj.2.pos si.2.wraps sj.2.wraps
             si.2.radius sj.2.radius).1 then
        some ⟨ERef.ship si.1, ERef.ship sj.1,
              (checkCollision sq W H si.2.pos sj.2.pos si.2.wraps sj.2.wraps
                 si.2.radius sj.2.radius).2⟩
      else none

/-- Asteroid-asteroid pass of detectCollisions (collision.cpp): ordered
index pairs `i < j`, both asteroids active. -/
def astAstPass (sq : ℚ → ℚ) (W H : ℚ) (asteroids : List Asteroid) :
    List CPair :=
  asteroids.enum.flatMap fun ai =>
    asteroids.enum.filterMap fun aj =>
      if ai.2.active && decide (ai.1 < aj.1) && aj.2.active &&
          (checkCollision sq W H ai.2.pos aj.2.pos ai.2.wraps aj.2.wraps
             ai.2.radius aj.2.radius).1 then
        some ⟨ERef.ast ai.1, ERef.ast aj.1,
              (checkCollision sq W H ai.2.pos aj.2.pos ai.2.wraps aj.2.wraps
                 ai.2.radius aj.2.radius).2⟩
      else none

/-- Bullet-asteroid pass of detectCollisions (collision.cpp). -/
def bulletAstPass (sq : ℚ → ℚ) (W H : ℚ) (bullets : List Bullet)
    (asteroids : List Asteroid) : List CPair :=
  bullets.enum.flatMap fun bi =>
    asteroids.enum.filterMap fun aj =>
      if bi.2.active && aj.2.active &&
          (checkCollision sq W H bi.2.pos aj.2.pos bi.2.wraps aj.2.wraps
             bi.2.radius aj.2.radius).1 then
        some ⟨ERef.bullet bi.1, ERef.ast aj.1,
              (checkCollision sq W H bi.2.pos aj.2.pos bi.2.wraps aj.2.wraps
                 bi.2.radius aj.2.radius).2⟩
      else none

/-- Black-hole accretion pass of detectCollisions (collision.cpp): per black
hole, ships then asteroids then bullets are tested against the single
accretion radius (`dist < bh.accretionRadius`); the `continue` on an
inactive black hole is folded into each guard. -/
def bhPass (sq : ℚ → ℚ) (W H : ℚ) (ships : List Ship)
    (asteroids : List Asteroid) (bullets : List Bullet)
    (blackHoles : List BlackHole) : List CPair :=
  blackHoles.enum.flatMap fun bk =>
    (ships.enum.filterMap fun si =>
      if bk.2.active && si.2.active &&
          decide (accDist sq W H si.2.pos bk.2.pos si.2.wraps <
            bk.2.accretionRadius) then
        some ⟨ERef.ship si.1, ERef.bh bk.1,
              accDist sq W H si.2.pos bk.2.pos si.2.wraps⟩
      else none) ++
    ((asteroids.enum.filterMap fun aj =>
      if bk.2.active && aj.2.active &&
          decide (accDist sq W H aj.2.pos bk.2.pos aj.2.wraps <
            bk.2.accretionRadius) then
        some ⟨ERef.ast aj.1, ERef.bh bk.1,
              accDist sq W H aj.2.pos bk.2.pos aj.2.wraps⟩
      else none) ++
    (bullets.enum.filterMap fun bl =>
      if bk.2.active && bl.2.active &&
          decide (accDist sq W H bl.2.pos bk.2.pos bl.2.wraps <
            bk.2.accretionRadius) then
        some ⟨ERef.bullet bl.1, ERef.bh bk.1,
              accDist sq W H bl.2.pos bk.2.pos bl.2.wraps⟩
      else none))

/-- CollisionDetector::detectCollisions (collision.cpp): the passes in
source order.  Bullet-bullet, bullet-ship and black-hole-black-hole pairs
are never generated. -/
def detectCollisions (sq : ℚ → ℚ) (W H : ℚ) (ships : List Ship)
    (asteroids : List Asteroid) (bullets : List Bullet)
    (blackHoles : List BlackHole) : List CPair :=
  shipAstPass sq W H ships asteroids ++
    (shipShipPass sq W H ships ++
      (astAstPass sq W H asteroids ++
        (bulletAstPass sq W H bullets asteroids ++
          bhPass sq W H ships asteroids bullets blackHoles)))

theorem mem_shipAstPass (sq : ℚ → ℚ) (W H : ℚ) (ships : List Ship)
    (asteroids : List Asteroid) (p : CPair) :
    p ∈ shipAstPass sq W H ships asteroids ↔
      ∃ i s j a, ships[i]? = some s ∧ asteroids[j]? = some a ∧
        s.active = true ∧ s.invulnerable = false ∧ a.active = true ∧
        overlaps W H s.pos a.pos s.wraps a.wraps s.radius a.radius ∧
        p = ⟨ERef.ship i, ERef.ast j,
             sq (lengthSq (pairDisp W H s.pos a.pos s.wraps a.wraps))⟩ := by
  unfold shipAstPass
  rw [mem_pairScan ships asteroids
      (fun si aj => si.2.active && !si.2.invulnerable && aj.2.active &&
        (checkCollision sq W H si.2.pos aj.2.pos si.2.wraps aj.2.wraps
           si.2.radius aj.2.radius).1)
      (fun si aj => ⟨ERef.ship si.1, ERef.ast aj.1,
        (checkCollision sq W H si.2.pos aj.2.pos si.2.wraps aj.2.wraps
           si.2.radius aj.2.radius).2⟩) p]
  simp only [Bool.and_eq_true, Bool.not_eq_true', checkCollision_fst,
    checkCollision_snd, and_assoc]

theorem mem_shipShipPass (sq : ℚ → ℚ) (W H : ℚ) (ships : List Ship)
    (p : CPair) :
    p ∈ shipShipPass sq W H ships ↔
      ∃ i s j s', ships[i]? = some s ∧ ships[j]? = some s' ∧
        s.active = true ∧ i < j ∧ s'.active = true ∧
        overlaps W H s.pos s'.pos s.wraps s'.wraps s.radius s'.radius ∧
        p = ⟨ERef.ship i, ERef.ship j,
             sq (lengthSq (pairDisp W H s.pos s'.pos s.wraps s'.wraps))⟩ := by
  unfold shipShipPass
  rw [mem_pairScan ships ships
      (fun si sj => si.2.active && decide (si.1 < sj.1) && sj.2.active &&
        (checkCollision sq W H si.2.pos sj.2.pos si.2.wraps sj.2.wraps
           si.2.radius sj.2.radius).1)
      (fun si sj => ⟨ERef.ship si.1, ERef.ship sj.1,
        (checkCollision sq W H si.2.pos sj.2.pos si.2.wraps sj.2.wraps
           si.2.radius sj.2.radius).2⟩) p]
  simp only [Bool.and_eq_true, decide_eq_true_eq, checkCollision_fst,
    checkCollision_snd, and_assoc]

theorem mem_astAstPass (sq : ℚ → ℚ) (W H : ℚ) (asteroids : List Asteroid)
    (p : CPair) :
    p ∈ astAstPass sq W H asteroids ↔
      ∃ i a j a', asteroids[i]? = some a ∧ asteroids[j]? = some a' ∧
        a.active = true ∧ i < j ∧ a'.active = true ∧
        overlaps W H a.pos a'.pos a.wraps a'.wraps a.radius a'.radius ∧
        p = ⟨ERef.ast i, ERef.ast j,
             sq (lengthSq (pairDisp W H a.pos a'.pos a.wraps a'.wraps))⟩ := by
  unfold astAstPass
  rw [mem_pairScan asteroids asteroids
      (fun ai aj => ai.2.active && decide (ai.1 < aj.1) && aj.2.active &&
        (checkCollision sq W H ai.2.pos aj.2.pos ai.2.wraps aj.2.wraps
           ai.2.radius aj.2.radius).1)
      (fun ai aj => ⟨ERef.ast ai.1, ERef.ast aj.1,
        (checkCollision sq W H ai.2.pos aj.2.pos ai.2.wraps aj.2.wraps
           ai.2.radius aj.2.radius).2⟩) p]
  simp only [Bool.and_eq_true, decide_eq_true_eq, checkCollision_fst,
    checkCollision_snd, and_assoc]

theorem mem_bulletAstPass (sq : ℚ → ℚ) (W H : ℚ) (bullets : List Bullet)
    (asteroids : List Asteroid) (p : CPair) :
    p ∈ bulletAstPass sq W H bullets asteroids ↔
      ∃ i b j a, bullets[i]? = some b ∧ asteroids[j]? = some a ∧
        b.active = true ∧ a.active = true ∧
        overlaps W H b.pos a.pos b.wraps a.wraps b.radius a.radius ∧
        p = ⟨ERef.bullet i, ERef.ast j,
             sq (lengthSq (pairDisp W H b.pos a.pos b.wraps a.wraps))⟩ := by
  unfold bulletAstPass
  rw [mem_pairScan bullets asteroids
      (fun bi aj => bi.2.active && aj.2.active &&
        (checkCollision sq W H bi.2.pos aj.2.pos bi.2.wraps aj.2.wraps
           bi.2.radius aj.2.radius).1)
      (fun bi aj => ⟨ERef.bullet bi.1, ERef.ast aj.1,
        (checkCollision sq W H bi.2.pos aj.2.pos bi.2.wraps aj.2.wraps
           bi.2.radius aj.2.radius).2⟩) p]
  simp only [Bool.and_eq_true, checkCollision_fst, checkCollision_snd,
    and_assoc]

theorem mem_bhPass (sq : ℚ → ℚ) (W H : ℚ) (ships : List Ship)
    (asteroids : List Asteroid) (bullets : List Bullet)
    (blackHoles : List BlackHole) (p : CPair) :
    p ∈ bhPass sq W H ships asteroids bullets blackHoles ↔
      (∃ k bh i s, blackHoles[k]? = some bh ∧ ships[i]? = some s ∧
        bh.active = true ∧ s.active = true ∧
        accDist sq W H s.pos bh.pos s.wraps < bh.accretionRadius ∧
        p = ⟨ERef.ship i, ERef.bh k,
             accDist sq W H s.pos bh.pos s.wraps⟩) ∨
      ((∃ k bh j a, blackHoles[k]? = some bh ∧ asteroids[j]? = some a ∧
        bh.active = true ∧ a.active = true ∧
        accDist sq W H a.pos bh.pos a.wraps < bh.accretionRadius ∧
        p = ⟨ERef.ast j, ERef.bh k,
             accDist sq W H a.pos bh.pos a.wraps⟩) ∨
      (∃ k bh l b, blackHoles[k]? = some bh ∧ bullets[l]? = some b ∧
        bh.active = true ∧ b.active = true ∧
        accDist sq W H b.pos bh.pos b.wraps < bh.accretionRadius ∧
        p = ⟨ERef.bullet l, ERef.bh k,
             accDist sq W H b.pos bh.pos b.wraps⟩)) := by
  unfold bhPass
  rw [mem_flatMapThree]
  rw [mem_pairScan blackHoles ships
      (fun bk si => bk.2.active && si.2.active &&
        decide (accDist sq W H si.2.pos bk.2.pos si.2.wraps <
          bk.2.accretionRadius))
      (fun bk si => ⟨ERef.ship si.1, ERef.bh bk.1,
        accDist sq W H si.2.pos bk.2.pos si.2.wraps⟩) p]
  rw [mem_pairScan blackHoles asteroids
      (fun bk aj => bk.2.active && aj.2.active &&
        decide (accDist sq W H aj.2.pos bk.2.pos aj.2.wraps <
          bk.2.accretionRadius))
      (fun bk aj => ⟨ERef.ast aj.1, ERef.bh bk.1,
        accDist sq W H aj.2.pos bk.2.pos aj.2.wraps⟩) p]
  rw [mem_pairScan blackHoles bullets
      (fun bk bl => bk.2.active && bl.2.active &&
        decide (accDist sq W H bl.2.pos bk.2.pos bl.2.wraps <
          bk.2.accretionRadius))
      (fun bk bl => ⟨ERef.bullet bl.1, ERef.bh bk.1,
        accDist sq W H bl.2.pos bk.2.pos bl.2.wraps⟩) p]
  simp only [Bool.and_eq_true, decide_eq_true_eq, and_assoc]

/-- C5 (amended): detectCollisions reports exactly these pairs, and no
others.  Ship-asteroid pairs require the ship active AND not invulnerable
(the claim's "among active bodies" misses the invulnerability skip) and the
asteroid active, with the minimum-image-when-both-wrap squared distance
below the squared radius sum; ship-ship and asteroid-asteroid pairs
additionally require index order `i < j`; bullet-asteroid likewise; black
holes are tested only against ships, asteroids and bullets — not against
other black holes or particles (the claim's "every body type" fails for
black-hole pairs) — with the single-radius accretion test
`distance < accretionRadius`.  Bullet-bullet and bullet-ship pairs never
appear. -/
theorem detectCollisions_characterization (sq : ℚ → ℚ) (W H : ℚ)
    (ships : List Ship) (asteroids : List Asteroid) (bullets : List Bullet)
    (blackHoles : List BlackHole) (p : CPair) :
    p ∈ detectCollisions sq W H ships asteroids bullets blackHoles ↔
      (∃ i s j a, ships[i]? = some s ∧ asteroids[j]? = some a ∧
        s.active = true ∧ s.invulnerable = false ∧ a.active = true ∧
        overlaps W H s.pos a.pos s.wraps a.wraps s.radius a.radius ∧
        p = ⟨ERef.ship i, ERef.ast j,
             sq (lengthSq (pairDisp W H s.pos a.pos s.wraps a.wraps))⟩) ∨
      ((∃ i s j s', ships[i]? = some s ∧ ships[j]? = some s' ∧
        s.active = true ∧ i < j ∧ s'.active = true ∧
        overlaps W H s.pos s'.pos s.wraps s'.wraps s.radius s'.radius ∧
        p = ⟨ERef.ship i, ERef.ship j,
             sq (lengthSq (pairDisp W H s.pos s'.pos s.wraps s'.wraps))⟩) ∨
      ((∃ i a j a', asteroids[i]? = some a ∧ asteroids[j]? = some a' ∧
        a.active = true ∧ i < j ∧ a'.active = true ∧
        overlaps W H a.pos a'.pos a.wraps a'.wraps a.radius a'.radius ∧
        p = ⟨ERef.ast i, ERef.ast j,
             sq (lengthSq (pairDisp W H a.pos a'.pos a.wraps a'.wraps))⟩) ∨
      ((∃ i b j a, bullets[i]? = some b ∧ asteroids[j]? = some a ∧
        b.active = true ∧ a.active = true ∧
        overlaps W H b.pos a.pos b.wraps a.wraps b.radius a.radius ∧
        p = ⟨ERef.bullet i, ERef.ast j,
             sq (lengthSq (pairDisp W H b.pos a.pos b.wraps a.wraps))⟩) ∨
      ((∃ k bh i s, blackHoles[k]? = some bh ∧ ships[i]? = some s ∧
        bh.active = true ∧ s.active = true ∧
        accDist sq W H s.pos bh.pos s.wraps < bh.accretionRadius ∧
        p = ⟨ERef.ship i, ERef.bh k,
             accDist sq W H s.pos bh.pos s.wraps⟩) ∨
      ((∃ k bh j a, blackHoles[k]? = some bh ∧ asteroids[j]? = some a ∧
        bh.active = true ∧ a.active = true ∧
        accDist sq W H a.pos bh.pos a.wraps < bh.accretionRadius ∧
        p = ⟨ERef.ast j, ERef.bh k,
             accDist sq W H a.pos bh.pos a.wraps⟩) ∨
      (∃ k bh l b, blackHoles[k]? = some bh ∧ bullets[l]? = some b ∧
        bh.active = true ∧ b.active = true ∧
        accDist sq W H b.pos bh.pos b.wraps < bh.accretionRadius ∧
        p = ⟨ERef.bullet l, ERef.bh k,
             accDist sq W H b.pos bh.pos b.wraps⟩)))))) := by
  unfold detectCollisions
  simp only [List.mem_append]
  rw [mem_shipAstPass, mem_shipShipPass, mem_astAstPass, mem_bulletAstPass,
    mem_bhPass]

/-- Active but invulnerable ship at the origin (radius 10). -/
def cexDetShip : Ship := { invulnerable := true }

/-- Active asteroid overlapping that ship (distance 5 < 10 + 15). -/
def cexDetAst : Asteroid := { pos := (5, 0), radius := 15, mass := 1 }

/-- Active black hole with accretion radius 50. -/
def cexDetBH1 : BlackHole := { pos := (300, 400), accretionRadius := 50 }

/-- Second active black hole 10 units from the first (10 < 50). -/
def cexDetBH2 : BlackHole := { pos := (306, 408), accretionRadius := 50 }

/-- C5 (counterexample to the claimed characterization): in a 1000 x 1000
world the detector returns NO pairs although (i) an active ship overlaps an
active asteroid in the tested ship-asteroid combination — the ship is
invulnerable, a skip the claim omits — and (ii) two active black holes sit
within accretion distance of each other, so the claimed "every body type
against a black hole" test would report them. -/
theorem detectCollisions_counterexample :
    detectCollisions ratSqrt 1000 1000 [cexDetShip] [cexDetAst] []
        [cexDetBH1, cexDetBH2] = [] ∧
    cexDetShip.active = true ∧ cexDetAst.active = true ∧
    overlaps 1000 1000 cexDetShip.pos cexDetAst.pos cexDetShip.wraps
      cexDetAst.wraps cexDetShip.radius cexDetAst.radius ∧
    cexDetBH1.active = true ∧ cexDetBH2.active = true ∧
    ratSqrt (lengthSq (cexDetBH2.pos - cexDetBH1.pos)) <
      cexDetBH1.accretionRadius := by
  have e1 : ratSqrt 250000 = 500 := by unfold ratSqrt; simp; norm_num
  have e2 : ratSqrt 247025 = 497 := by unfold ratSqrt; simp; norm_num
  have e3 : ratSqrt 260100 = 510 := by unfold ratSqrt; simp; norm_num
  have e4 : ratSqrt 257065 = 507 := by unfold ratSqrt; simp; norm_num
  have e5 : ratSqrt 100 = 10 := by unfold ratSqrt; simp; norm_num
  refine ⟨?_, rfl, rfl, ?_, rfl, rfl, ?_⟩
  · norm_num [detectCollisions, shipAstPass, shipShipPass, astAstPass,
      bulletAstPass, bhPass, checkCollision, accDist, getMinimumImagePos,
      minimumImage, lengthSq, cexDetShip, cexDetAst, cexDetBH1, cexDetBH2,
      List.enum, List.enumFrom, Prod.ext_iff, e1, e2, e3, e4]
  · norm_num [overlaps, pairDisp, getMinimumImagePos, minimumImage,
      lengthSq, cexDetShip, cexDetAst, Prod.ext_iff]
  · norm_num [cexDetBH1, cexDetBH2, lengthSq, Prod.ext_iff, e5]

/-! ### Leapfrog step (GameEngine::applyPhysics, engine.cpp) -/

/-- PhysicsConfig (engine.h) with its constructor defaults. -/
structure PhysicsConfig where
  dt : ℚ := 1 / 120
  G : ℚ := 100
  epsilon : ℚ := 5
  theta : ℚ := 1 / 2
deriving DecidableEq

/-- The bodies applyPhysics gathers for gravity (engine.cpp): every active
ship, asteroid, bullet and black hole, in that order.  Particles move
ballistically and are never collected. -/
def activeBodies (ships : List Ship) (asteroids : List Asteroid)
    (bullets : List Bullet) (blackHoles : List BlackHole) : List PBody :=
  (ships.filter (fun s => s.active)).map (fun s => (⟨s.pos, s.mass⟩ : PBody))
    ++ (asteroids.filter (fun a => a.active)).map
        (fun a => (⟨a.pos, a.mass⟩ : PBody))
    ++ (bullets.filter (fun b => b.active)).map
        (fun b => (⟨b.pos, b.mass⟩ : PBody))
    ++ (blackHoles.filter (fun b => b.active)).map
        (fun b => (⟨b.pos, b.mass⟩ : PBody))

/-- The acceleration accumulated for one body during a half-kick of
GameEngine::applyPhysics: tree gravity at its position plus the external
potential's acceleration at its position (when a potential is installed). -/
def kickAcc (env : Env) (phys : PhysicsConfig) (W H : ℚ) (t : QNode)
    (pot : Option (Vec2 → Vec2)) (pos : Vec2) (mass : ℚ) : Vec2 :=
  calcAcc env.sq env.p15 phys.theta phys.epsilon phys.G W H pos mass t +
    (match pot with
     | some f => f pos
     | none => ((0 : ℚ), (0 : ℚ)))

/-- Half-kick over the ship vector (engine.cpp): each active ship stores the
computed acceleration and gains `acc * dt/2` of velocity; inactive ships
are not in `bodies` and stay untouched. -/
def kickShips (env : Env) (phys : PhysicsConfig) (W H : ℚ) (t : QNode)
    (pot : Option (Vec2 → Vec2)) (ships : List Ship) : List Ship :=
  ships.map (fun s =>
    if s.active then
      { s with acc := kickAcc env phys W H t pot s.pos s.mass,
               vel := s.vel + vmul (kickAcc env phys W H t pot s.pos s.mass)
                 (phys.dt * (1/2)) }
    else s)

/-- Half-kick over the asteroid vector (engine.cpp). -/
def kickAsteroids (env : Env) (phys : PhysicsConfig) (W H : ℚ) (t : QNode)
    (pot : Option (Vec2 → Vec2)) (asteroids : List Asteroid) :
    List Asteroid :=
  asteroids.map (fun a =>
    if a.active then
      { a with acc := kickAcc env phys W H t pot a.pos a.mass,
               vel := a.vel + vmul (kickAcc env phys W H t pot a.pos a.mass)
                 (phys.dt * (1/2)) }
    else a)

/-- Half-kick over the bullet vector (engine.cpp). -/
def kickBullets (env : Env) (phys : PhysicsConfig) (W H : ℚ) (t : QNode)
    (pot : Option (Vec2 → Vec2)) (bullets : List Bullet) : List Bullet :=
  bullets.map (fun b =>
    if b.active then
      { b with acc := kickAcc env phys W H t pot b.pos b.mass,
               vel := b.vel + vmul (kickAcc env phys W H t pot b.pos b.mass)
                 (phys.dt * (1/2)) }
    else b)

/-- Half-kick over the black-hole vector (engine.cpp). -/
def kickBHs (env : Env) (phys : PhysicsConfig) (W H : ℚ) (t : QNode)
    (pot : Option (Vec2 → Vec2)) (blackHoles : List BlackHole) :
    List BlackHole :=
  blackHoles.map (fun b =>
    if b.active then
      { b with acc := kickAcc env phys W H t pot b.pos b.mass,
               vel := b.vel + vmul (kickAcc env phys W H t pot b.pos b.mass)
                 (phys.dt * (1/2)) }
    else b)

/-- Drift over the ship vector (engine.cpp): `pos += vel * dt`, wrapped
exactly for bodies whose wrap flag is set. -/
def driftShips (phys : PhysicsConfig) (W H : ℚ) (ships : List Ship) :
    List Ship :=
  ships.map (fun s =>
    if s.active then
      { s with pos := if s.wraps then
          wrapPosition (s.pos + vmul s.vel phys.dt) W H
        else s.pos + vmul s.vel phys.dt }
    else s)

/-- Drift over the asteroid vector (engine.cpp). -/
def driftAsteroids (phys : PhysicsConfig) (W H : ℚ)
    (asteroids : List Asteroid) : List Asteroid :=
  asteroids.map (fun a =>
    if a.active then
      { a with pos := if a.wraps then
          wrapPosition (a.pos + vmul a.vel phys.dt) W H
        else a.pos + vmul a.vel phys.dt }
    else a)

/-- Drift over the bullet vector (engine.cpp). -/
def driftBullets (phys : PhysicsConfig) (W H : ℚ) (bullets : List Bullet) :
    List Bullet :=
  bullets.map (fun b =>
    if b.active then
      { b with pos := if b.wraps then
          wrapPosition (b.pos + vmul b.vel phys.dt) W H
        else b.pos + vmul b.vel phys.dt }
    else b)

/-- Drift over the black-hole vector (engine.cpp); black holes never wrap
but the flag is consulted exactly as for the other types. -/
def driftBHs (phys : PhysicsConfig) (W H : ℚ)
    (blackHoles : List BlackHole) : List BlackHole :=
  blackHoles.map (fun b =>
    if b.active then
      { b with pos := if b.wraps then
          wrapPosition (b.pos + vmul b.vel phys.dt) W H
        else b.pos + vmul b.vel phys.dt }
    else b)

/-- BlackHole::isOffscreen (entity.cpp): outside the world rectangle by
more than a 100-unit margin. -/
def bhIsOffscreen (W H : ℚ) (b : BlackHole) : Bool :=
  decide (b.pos.1 < -100) || decide (b.pos.1 > W + 100) ||
    decide (b.pos.2 < -100) || decide (b.pos.2 > H + 100)

/-- The trailing sweep of GameEngine::applyPhysics: active black holes that
drifted past the offscreen margin are deactivated. -/
def sweepOffscreenBHs (W H : ℚ) (blackHoles : List BlackHole) :
    List BlackHole :=
  blackHoles.map (fun b =>
    if b.active && bhIsOffscreen W H b then { b with active := false }
    else b)

/-- GameEngine::applyPhysics (engine.cpp) with fueled tree builds: collect
the active bodies; if none, only the offscreen black-hole sweep acts (the
build is skipped and the kick and drift loops traverse nothing); otherwise
build, first half-kick, drift with wrapping, rebuild from the drifted
positions, second half-kick, then the sweep.  `none` reports build-fuel
exhaustion, which the C10 termination theorem rules out for separated
bodies. -/
def applyPhysics (env : Env) (fuel : ℕ) (phys : PhysicsConfig) (W H : ℚ)
    (pot : Option (Vec2 → Vec2)) (ships : List Ship)
    (asteroids : List Asteroid) (bullets : List Bullet)
    (blackHoles : List BlackHole) :
    Option (List Ship × List Asteroid × List Bullet × List BlackHole) :=
  let bodies := activeBodies ships asteroids bullets blackHoles
  if bodies.isEmpty then
    some (ships, asteroids, bullets, sweepOffscreenBHs W H blackHoles)
  else
    (buildFuel fuel bodies W H).bind fun t1 =>
      let s1 := kickShips env phys W H t1 pot ships
      let a1 := kickAsteroids env phys W H t1 pot asteroids
      let b1 := kickBullets env phys W H t1 pot bullets
      let h1 := kickBHs env phys W H t1 pot blackHoles
      let s2 := driftShips phys W H s1
      let a2 := driftAsteroids phys W H a1
      let b2 := driftBullets phys W H b1
      let h2 := driftBHs phys W H h1
      (buildFuel fuel (activeBodies s2 a2 b2 h2) W H).bind fun t2 =>
        some (kickShips env phys W H t2 pot s2,
              kickAsteroids env phys W H t2 pot a2,
              kickBullets env phys W H t2 pot b2,
              sweepOffscreenBHs W H (kickBHs env phys W H t2 pot h2))

/-- C4: each physics step performs exactly, in this order: quadtree build
over the active bodies; first half-kick where every active body's velocity
gains (tree gravity at its position + external potential acceleration at
its position) * dt/2; drift where position += velocity * dt with
wrapPosition applied exactly to bodies whose wrap flag is set; quadtree
rebuild from the drifted positions; second half-kick computed the same way
as the first — then the spec's step-6 housekeeping deactivates offscreen
black holes.  With no active body, the build is skipped and only the
housekeeping sweep acts. -/
theorem leapfrog_kdk_phases (env : Env) (fuel : ℕ) (phys : PhysicsConfig)
    (W H : ℚ) (pot : Option (Vec2 → Vec2)) (ships : List Ship)
    (asteroids : List Asteroid) (bullets : List Bullet)
    (blackHoles : List BlackHole)
    (out : List Ship × List Asteroid × List Bullet × List BlackHole)
    (hrun : applyPhysics env fuel phys W H pot ships asteroids bullets
      blackHoles = some out) :
    (activeBodies ships asteroids bullets blackHoles = [] →
      out = (ships, asteroids, bullets, sweepOffscreenBHs W H blackHoles)) ∧
    (activeBodies ships asteroids bullets blackHoles ≠ [] →
      ∃ t1 t2,
        buildFuel fuel (activeBodies ships asteroids bullets blackHoles)
          W H = some t1 ∧
        buildFuel fuel (activeBodies
            (driftShips phys W H (kickShips env phys W H t1 pot ships))
            (driftAsteroids phys W H
              (kickAsteroids env phys W H t1 pot asteroids))
            (driftBullets phys W H (kickBullets env phys W H t1 pot bullets))
            (driftBHs phys W H (kickBHs env phys W H t1 pot blackHoles)))
          W H = some t2 ∧
        out = (kickShips env phys W H t2 pot
                 (driftShips phys W H (kickShips env phys W H t1 pot ships)),
               kickAsteroids env phys W H t2 pot
                 (driftAsteroids phys W H
                   (kickAsteroids env phys W H t1 pot asteroids)),
               kickBullets env phys W H t2 pot
                 (driftBullets phys W H
                   (kickBullets env phys W H t1 pot bullets)),
               sweepOffscreenBHs W H (kickBHs env phys W H t2 pot
                 (driftBHs phys W H
                   (kickBHs env phys W H t1 pot blackHoles))))) := by
  unfold applyPhysics at hrun
  dsimp only at hrun
  constructor
  · intro hemp
    have he : (activeBodies ships asteroids bullets blackHoles).isEmpty =
        true := by rw [hemp]; rfl
    rw [if_pos he] at hrun
    exact (Option.some_inj.mp hrun).symm
  · intro hne
    have he : (activeBodies ships asteroids bullets blackHoles).isEmpty =
        false := by
      cases hx : activeBodies ships asteroids bullets blackHoles with
      | nil => exact absurd hx hne
      | cons a l => rfl
    rw [he] at hrun
    simp only [Bool.false_eq_true, if_false] at hrun
    cases hb1 : buildFuel fuel
        (activeBodies ships asteroids bullets blackHoles) W H with
    | none => rw [hb1] at hrun; exact absurd hrun (by simp)
    | some t1 =>
      rw [hb1, Option.some_bind] at hrun
      cases hb2 : buildFuel fuel (activeBodies
          (driftShips phys W H (kickShips env phys W H t1 pot ships))
          (driftAsteroids phys W H
            (kickAsteroids env phys W H t1 pot asteroids))
          (driftBullets phys W H (kickBullets env phys W H t1 pot bullets))
          (driftBHs phys W H (kickBHs env phys W H t1 pot blackHoles)))
          W H with
      | none => rw [hb2] at hrun; exact absurd hrun (by simp)
      | some t2 =>
        rw [hb2, Option.some_bind] at hrun
        exact ⟨t1, t2, rfl, hb2, (Option.some_inj.mp hrun).symm⟩

/-- Ship of the C4 witness: not wrapping, drifting right at 12 units/s from
the center of a 200 x 200 world. -/
def wKShip : Ship := { pos := (100, 100), vel := (12, 0), wraps := false }

/-- The C4 witness ship after one step at dt = 1/120: drifted by 1/10. -/
def wKOutShip : Ship :=
  { pos := (1001/10, 100), vel := (12, 0), wraps := false }

/-- C4 witness: the phase decomposition evaluated on the one-ship state. -/
theorem leapfrog_kdk_phases_witness :
    (activeBodies [wKShip] [] [] [] = [] →
      (([wKOutShip], [], [], []) :
          List Ship × List Asteroid × List Bullet × List BlackHole) =
        ([wKShip], [], [], sweepOffscreenBHs 200 200 [])) ∧
    (activeBodies [wKShip] [] [] [] ≠ [] →
      ∃ t1 t2,
        buildFuel 1 (activeBodies [wKShip] [] [] []) 200 200 = some t1 ∧
        buildFuel 1 (activeBodies
            (driftShips {} 200 200 (kickShips testEnv {} 200 200 t1 none
              [wKShip]))
            (driftAsteroids {} 200 200 (kickAsteroids testEnv {} 200 200 t1
              none []))
            (driftBullets {} 200 200 (kickBullets testEnv {} 200 200 t1
              none []))
            (driftBHs {} 200 200 (kickBHs testEnv {} 200 200 t1 none [])))
          200 200 = some t2 ∧
        (([wKOutShip], [], [], []) :
            List Ship × List Asteroid × List Bullet × List BlackHole) =
          (kickShips testEnv {} 200 200 t2 none
             (driftShips {} 200 200 (kickShips testEnv {} 200 200 t1 none
               [wKShip])),
           kickAsteroids testEnv {} 200 200 t2 none
             (driftAsteroids {} 200 200 (kickAsteroids testEnv {} 200 200 t1
               none [])),
           kickBullets testEnv {} 200 200 t2 none
             (driftBullets {} 200 200 (kickBullets testEnv {} 200 200 t1
               none [])),
           sweepOffscreenBHs 200 200 (kickBHs testEnv {} 200 200 t2 none
             (driftBHs {} 200 200 (kickBHs testEnv {} 200 200 t1 none
               []))))) :=
  leapfrog_kdk_phases testEnv 1 {} 200 200 none [wKShip] [] [] []
    ([wKOutShip], [], [], [])
    (by norm_num [applyPhysics, activeBodies, buildFuel, insertB,
      kickShips, kickAsteroids, kickBullets, kickBHs, driftShips,
      driftAsteroids, driftBullets, driftBHs, kickAcc, calcAcc,
      sweepOffscreenBHs, wKShip, wKOutShip, vmul, vdiv, lengthSq,
      minimumImage, testEnv, Prod.ext_iff])

/-! ### Full engine tick (GameEngine::step, engine.cpp) -/

/-- DifficultyConfig (engine.h) with its constructor defaults. -/
structure DifficultyConfig where
  bhSpawnRate : ℚ := 5 / 10000
  bhMassMult : ℚ := 1
  bhAccRadius : ℚ := 25
  bhEnabled : Bool := true
  shipMass : ℚ := 1500
  bulletMass : ℚ := 100
  asteroidBaseMass : ℚ := 8000
  asteroidCount : ℤ := 4
deriving DecidableEq

/-- InputState (engine.h): one player's control flags. -/
structure InputState where
  left : Bool := false
  right : Bool := false
  thrust : Bool := false
  brake : Bool := false
  shoot : Bool := false
deriving DecidableEq

/-- Ship::update (entity.cpp): tick the invulnerability timer (clearing the
flag on expiry) and the shoot cooldown. -/
def shipUpdate (dt : ℚ) (s : Ship) : Ship :=
  let s1 := if s.invulnerable then
      (if s.invulnerableTime - dt ≤ 0 then
         { s with invulnerable := false, invulnerableTime := 0 }
       else { s with invulnerableTime := s.invulnerableTime - dt })
    else s
  if s1.shootCooldown > 0 then
    { s1 with shootCooldown := s1.shootCooldown - dt }
  else s1

/-- Asteroid::update (entity.cpp): advance the rotation. -/
def asteroidUpdate (dt : ℚ) (a : Asteroid) : Asteroid :=
  { a with rotation := a.rotation + a.rotationSpeed * dt }

/-- Bullet::update (entity.cpp): tick the lifetime, deactivating on
expiry. -/
def bulletUpdate (dt : ℚ) (b : Bullet) : Bullet :=
  if b.lifetime - dt ≤ 0 then
    { b with lifetime := b.lifetime - dt, active := false }
  else { b with lifetime := b.lifetime - dt }

/-- Particle::update (entity.cpp): ballistic move and lifetime tick. -/
def particleUpdate (dt : ℚ) (p : Particle) : Particle :=
  if p.lifetime - dt ≤ 0 then
    { p with pos := p.pos + vmul p.vel dt, lifetime := p.lifetime - dt,
             active := false }
  else
    { p with pos := p.pos + vmul p.vel dt, lifetime := p.lifetime - dt }

/-- Bullet::init (entity.cpp). -/
def bulletInit (b : Bullet) (entityId : ℤ) (position velocity : Vec2)
    (player : ℤ) : Bullet :=
  { b with id := entityId, pos := position, vel := velocity, acc := (0, 0),
           playerId := player, lifetime := b.maxLifetime, active := true }

/-- BlackHole::init (entity.cpp). -/
def bhInit (b : BlackHole) (entityId : ℤ) (position velocity : Vec2)
    (bhMass bhAccretionRadius : ℚ) : BlackHole :=
  { b with id := entityId, pos := position, vel := velocity, acc := (0, 0),
           mass := bhMass, accretionRadius := bhAccretionRadius,
           active := true }

/-- GameEngine::updateEntities (engine.cpp): per-type timer updates applied
to active entities only (black holes have no update call). -/
def updateEntities (dt : ℚ) (ships : List Ship) (asteroids : List Asteroid)
    (bullets : List Bullet) (particles : List Particle) :
    List Ship × List Asteroid × List Bullet × List Particle :=
  (ships.map (fun s => if s.active then shipUpdate dt s else s),
   asteroids.map (fun a => if a.active then asteroidUpdate dt a else a),
   bullets.map (fun b => if b.active then bulletUpdate dt b else b),
   particles.map (fun p => if p.active then particleUpdate dt p else p))

/-- The input block of GameEngine::step for one ship (engine.cpp): rotate,
thrust, brake, and shoot.  `cos/sin` of the heading is the oracle
`env.shipDir`; the squared-length square root in the brake branch is the
oracle `env.sq`.  Returns the ship, the spawned bullet if any, and the
advanced entity id. -/
def applyInputShip (env : Env) (phys : PhysicsConfig)
    (diff : DifficultyConfig) (input : InputState) (i : ℕ) (nextId : ℤ)
    (s0 : Ship) : Ship × Option Bullet × ℤ :=
  if s0.active then
    let s1 := if input.left then
        { s0 with angle := s0.angle + (-3) * phys.dt } else s0
    let s2 := if input.right then
        { s1 with angle := s1.angle + 3 * phys.dt } else s1
    let s3 := if input.thrust then
        { s2 with vel := s2.vel + vmul (env.shipDir s2.angle) (500 * phys.dt) }
      else s2
    let s4 := if input.brake then
        (let speed := env.sq (lengthSq s3.vel)
         let decel := vmul (vmul (vdiv s3.vel speed) (-1)) (500 * phys.dt)
         if speed > 1 then { s3 with vel := s3.vel + decel }
         else { s3 with vel := (0, 0) })
      else s3
    if input.shoot && decide (s4.shootCooldown ≤ 0) then
      let d := env.shipDir s4.angle
      let b := { bulletInit {} nextId (s4.pos + vmul d (s4.radius + 5))
                   (s4.vel + vmul d 300) (Int.ofNat i) with
                 mass := diff.bulletMass }
      ({ s4 with shootCooldown := 1/5 }, some b, nextId + 1)
    else (s4, none, nextId)
  else (s0, none, nextId)

/-- The input loop of GameEngine::step over the ship vector, threading the
entity-id counter and collecting spawned bullets in ship order. -/
def applyInputs (env : Env) (phys : PhysicsConfig)
    (diff : DifficultyConfig) (inputs : ℕ → InputState) :
    List Ship → ℕ → ℤ → List Ship × List Bullet × ℤ
  | [], _, nid => ([], [], nid)
  | s :: rest, i, nid =>
      let r := applyInputShip env phys diff (inputs i) i nid s
      let rest' := applyInputs env phys diff inputs rest (i + 1) r.2.2
      (r.1 :: rest'.1,
       (match r.2.1 with | some b => [b] | none => []) ++ rest'.2.1,
       rest'.2.2)

/-- The collision-handling state threaded through
GameEngine::handleCollisions: the five entity vectors, the entity-id
counter, and the random-draw counter. -/
structure HCState where
  ships : List Ship
  asteroids : List Asteroid
  bullets : List Bullet
  blackHoles : List BlackHole
  particles : List Particle
  nextId : ℤ
  ctr : ℕ

/-- CollisionHandler::handleBlackHoleAccretion on a ship (collision.cpp;
the translation follows the three-argument implementation in collision.cpp
— collision.h declares and engine.cpp calls a six-argument variant whose
definition is absent from the snapshot): lose a life, and either die with a
60-particle burst or respawn invulnerable at the center after a 40-particle
burst at the accretion point. -/
def handleBHAccretionShip (env : Env) (ctr : ℕ) (W H : ℚ) (ship : Ship)
    (particles : List Particle) : Ship × List Particle × ℕ :=
  let accretionPos := ship.pos
  let lives' := ship.lives - 1
  if lives' ≤ 0 then
    let e := createExplosion env ctr accretionPos 60 particles 50 250 2
      ship.playerId
    ({ ship with lives := lives', active := false }, e.1, e.2)
  else
    let e := createExplosion env ctr accretionPos 40 particles 50 200 (3/2)
      ship.playerId
    ({ ship with lives := lives', invulnerable := true,
                 invulnerableTime := 3,
                 pos := (W * (1/2), H * (1/2)), vel := (0, 0) },
     e.1, e.2)

/-- Whether the entity a reference points at is currently active. -/
def refActive (st : HCState) : ERef → Bool
  | .ship i => (st.ships[i]?.map Ship.active).getD false
  | .ast i => (st.asteroids[i]?.map Asteroid.active).getD false
  | .bullet i => (st.bullets[i]?.map Bullet.active).getD false
  | .bh i => (st.blackHoles[i]?.map BlackHole.active).getD false

/-- One iteration of the dispatch loop in GameEngine::handleCollisions
(engine.cpp): skip if either body went inactive, then branch on the type
tags exactly as the C++ if-chain does — ship/asteroid (either order),
ship/ship, asteroid/asteroid, bullet/asteroid (either order, with the
scoring side effect), and finally accretion when either side is a black
hole.  Untested combinations (bullet/ship, bullet/bullet) fall through. -/
def resolvePair (env : Env) (W H : ℚ) (st : HCState) (p : CPair) :
    HCState :=
  if !(refActive st p.a) || !(refActive st p.b) then st
  else
    match p.a, p.b with
    | .ship i, .ast j =>
        (match st.ships[i]?, st.asteroids[j]? with
         | some s, some a =>
             let r := handleShipAsteroid env st.ctr W H s a st.particles
             { st with ships := st.ships.set i r.1, particles := r.2.1,
                       ctr := r.2.2 }
         | _, _ => st)
    | .ast j, .ship i =>
        (match st.ships[i]?, st.asteroids[j]? with
         | some s, some a =>
             let r := handleShipAsteroid env st.ctr W H s a st.particles
             { st with ships := st.ships.set i r.1, particles := r.2.1,
                       ctr := r.2.2 }
         | _, _ => st)
    | .ship i, .ship j =>
        (match st.ships[i]?, st.ships[j]? with
         | some s1, some s2 =>
             let r := handleShipShip env W H s1 s2
             { st with ships := (st.ships.set i r.1).set j r.2 }
         | _, _ => st)
    | .ast i, .ast j =>
        (match st.asteroids[i]?, st.asteroids[j]? with
         | some a1, some a2 =>
             let r := handleAsteroidAsteroid env W H a1 a2
             { st with asteroids := (st.asteroids.set i r.1).set j r.2 }
         | _, _ => st)
    | .bullet i, .ast j =>
        (match st.bullets[i]?, st.asteroids[j]? with
         | some b, some a =>
             let r := handleBulletAsteroid env st.ctr W H b a st.particles
               st.asteroids st.nextId
             let ships' :=
               if 0 ≤ b.playerId ∧ b.playerId < (st.ships.length : ℤ) then
                 (match st.ships[b.playerId.toNat]? with
                  | some sh => st.ships.set b.playerId.toNat
                      { sh with score := sh.score + 10 }
                  | none => st.ships)
               else st.ships
             { st with ships := ships',
                       bullets := st.bullets.set i r.1,
                       asteroids := r.2.2.2.1.set j r.2.1,
                       particles := r.2.2.1, nextId := r.2.2.2.2.1,
                       ctr := r.2.2.2.2.2 }
         | _, _ => st)
    | .ast j, .bullet i =>
        (match st.bullets[i]?, st.asteroids[j]? with
         | some b, some a =>
             let r := handleBulletAsteroid env st.ctr W H b a st.particles
               st.asteroids st.nextId
             let ships' :=
               if 0 ≤ b.playerId ∧ b.playerId < (st.ships.length : ℤ) then
                 (match st.ships[b.playerId.toNat]? with
                  | some sh => st.ships.set b.playerId.toNat
                      { sh with score := sh.score + 10 }
                  | none => st.ships)
               else st.ships
             { st with ships := ships',
                       bullets := st.bullets.set i r.1,
                       asteroids := r.2.2.2.1.set j r.2.1,
                       particles := r.2.2.1, nextId := r.2.2.2.2.1,
                       ctr := r.2.2.2.2.2 }
         | _, _ => st)
    | .ship i, .bh _ =>
        (match st.ships[i]? with
         | some s =>
             let r := handleBHAccretionShip env st.ctr W H s st.particles
             { st with ships := st.ships.set i r.1, particles := r.2.1,
                       ctr := r.2.2 }
         | none => st)
    | .ast i, .bh _ =>
        (match st.asteroids[i]? with
         | some a =>
             let e := createExplosion env st.ctr a.pos 20 st.particles
               50 150 1 (-1)
             { st with asteroids := st.asteroids.set i { a with active := false },
                       particles := e.1, ctr := e.2 }
         | none => st)
    | .bullet i, .bh _ =>
        (match st.bullets[i]? with
         | some b =>
             let e := createExplosion env st.ctr b.pos 20 st.particles
               50 150 1 (-1)
             { st with bullets := st.bullets.set i { b with active := false },
                       particles := e.1, ctr := e.2 }
         | none => st)
    | .bh i, .bh _ =>
        (match st.blackHoles[i]? with
         | some b =>
             let e := createExplosion env st.ctr b.pos 20 st.particles
               50 150 1 (-1)
             { st with blackHoles := st.blackHoles.set i { b with active := false },
                       particles := e.1, ctr := e.2 }
         | none => st)
    | .bh _, .ship i =>
        (match st.ships[i]? with
         | some s =>
             let r := handleBHAccretionShip env st.ctr W H s st.particles
             { st with ships := st.ships.set i r.1, particles := r.2.1,
                       ctr := r.2.2 }
         | none => st)
    | .bh _, .ast i =>
        (match st.asteroids[i]? with
         | some a =>
             let e := createExplosion env st.ctr a.pos 20 st.particles
               50 150 1 (-1)
             { st with asteroids := st.asteroids.set i { a with active := false },
                       particles := e.1, ctr := e.2 }
         | none => st)
    | .bh _, .bullet i =>
        (match st.bullets[i]? with
         | some b =>
             let e := createExplosion env st.ctr b.pos 20 st.particles
               50 150 1 (-1)
             { st with bullets := st.bullets.set i { b with active := false },
                       particles := e.1, ctr := e.2 }
         | none => st)
    | .ship _, .bullet _ => st
    | .bullet _, .ship _ => st
    | .bullet _, .bullet _ => st

/-- GameEngine::handleCollisions (engine.cpp): detect, then resolve each
pair in order. -/
def handleCollisions (env : Env) (W H : ℚ) (st : HCState) : HCState :=
  (detectCollisions env.sq W H st.ships st.asteroids st.bullets
    st.blackHoles).foldl (resolvePair env W H) st

/-- GameEngine::spawnBlackHole (engine.cpp): the edge draw and the
position/velocity draws are absorbed into the oracle streams `env.dirDraw`
and `env.pvel`; the mass formula `(5000 + wave*500) * bhMassMult` and
BlackHole::init are kept exactly. -/
def spawnBlackHole (env : Env) (wave : ℤ) (diff : DifficultyConfig)
    (nextId : ℤ) (ctr : ℕ) (blackHoles : List BlackHole) :
    List BlackHole × ℤ × ℕ :=
  (blackHoles ++ [bhInit {} nextId (env.dirDraw ctr) (env.pvel (ctr + 1))
     ((5000 + (wave : ℚ) * 500) * diff.bhMassMult) diff.bhAccRadius],
   nextId + 1, ctr + 2)

/-- GameEngine::spawnInitialAsteroids (engine.cpp): `asteroidCount + wave*2`
size-0 asteroids at oracle edge positions and velocities. -/
def spawnWaveAsteroids (env : Env) (diff : DifficultyConfig) (wave : ℤ)
    (nextId : ℤ) (ctr : ℕ) : List Asteroid × ℤ × ℕ :=
  let count := (diff.asteroidCount + wave * 2).toNat
  ((List.range count).map (fun (i : ℕ) =>
     asteroidInit {} (nextId + (i : ℤ)) (env.dirDraw (ctr + 2 * i))
       (env.pvel (ctr + 2 * i + 1)) 0 diff.asteroidBaseMass
       (env.rotDraw (ctr + 2 * i))),
   nextId + (count : ℤ), ctr + 2 * count)

/-- GameEngine::checkWaveComplete (engine.cpp): when no asteroid is active
and the vector is empty (it was just swept), advance the wave and spawn the
next wave's asteroids. -/
def checkWaveComplete (env : Env) (diff : DifficultyConfig)
    (asteroids : List Asteroid) (wave : ℤ) (nextId : ℤ) (ctr : ℕ) :
    List Asteroid × ℤ × ℤ × ℕ :=
  if !(asteroids.any (fun a => a.active)) && asteroids.isEmpty then
    let sp := spawnWaveAsteroids env diff (wave + 1) nextId ctr
    (asteroids ++ sp.1, wave + 1, sp.2.1, sp.2.2)
  else (asteroids, wave, nextId, ctr)

/-- Engine state (GameEngine, engine.h): the five entity vectors, domain,
clock, wave and id counters, configuration, per-player inputs (the C++
two-slot array is indexed by the ship loop index), the installed potential,
and the oracle draw counter. -/
structure EngState where
  ships : List Ship
  asteroids : List Asteroid
  bullets : List Bullet
  blackHoles : List BlackHole
  particles : List Particle
  worldWidth : ℚ
  worldHeight : ℚ
  time : ℚ
  wave : ℤ
  nextEntityId : ℤ
  physics : PhysicsConfig
  difficulty : DifficultyConfig
  inputs : ℕ → InputState
  potential : Option (Vec2 → Vec2)
  ctr : ℕ

/-- GameEngine::step (engine.cpp): update entity timers; apply inputs;
leapfrog physics; resolve collisions; maybe spawn a black hole; sweep
inactive asteroids, bullets, black holes and particles (ships are NOT
swept); check wave completion; advance the clock.  `none` reports tree
build fuel exhaustion inside applyPhysics. -/
def step (env : Env) (fuel : ℕ) (st : EngState) : Option EngState :=
  let up := updateEntities st.physics.dt st.ships st.asteroids st.bullets
    st.particles
  let inp := applyInputs env st.physics st.difficulty st.inputs up.1 0
    st.nextEntityId
  (applyPhysics env fuel st.physics st.worldWidth st.worldHeight
      st.potential inp.1 up.2.1 (up.2.2.1 ++ inp.2.1) st.blackHoles).bind
    fun ph =>
      let hc := handleCollisions env st.worldWidth st.worldHeight
        ⟨ph.1, ph.2.1, ph.2.2.1, ph.2.2.2, up.2.2.2, inp.2.2, st.ctr⟩
      let bhs :=
        if st.difficulty.bhEnabled then
          (if env.urand hc.ctr < st.difficulty.bhSpawnRate then
             spawnBlackHole env st.wave st.difficulty hc.nextId
               (hc.ctr + 1) hc.blackHoles
           else (hc.blackHoles, hc.nextId, hc.ctr + 1))
        else (hc.blackHoles, hc.nextId, hc.ctr)
      let wc := checkWaveComplete env st.difficulty
        (hc.asteroids.filter (fun a => a.active)) st.wave bhs.2.1 bhs.2.2
      some { st with
        ships := hc.ships,
        asteroids := wc.1,
        bullets := hc.bullets.filter (fun b => b.active),
        blackHoles := bhs.1.filter (fun b => b.active),
        particles := hc.particles.filter (fun p => p.active),
        wave := wc.2.1,
        nextEntityId := wc.2.2.1,
        ctr := wc.2.2.2,
        time := st.time + st.physics.dt }

theorem spawnWaveAsteroids_active (env : Env) (diff : DifficultyConfig)
    (wave nextId : ℤ) (ctr : ℕ) :
    ∀ a ∈ (spawnWaveAsteroids env diff wave nextId ctr).1,
      a.active = true := by
  intro a ha
  simp only [spawnWaveAsteroids, List.mem_map] at ha
  obtain ⟨i, _, rfl⟩ := ha
  simp [asteroidInit]

theorem checkWaveComplete_active (env : Env) (diff : DifficultyConfig)
    (asteroids : List Asteroid) (wave nextId : ℤ) (ctr : ℕ)
    (hall : ∀ a ∈ asteroids, a.active = true) :
    ∀ a ∈ (checkWaveComplete env diff asteroids wave nextId ctr).1,
      a.active = true := by
  intro a ha
  unfold checkWaveComplete at ha
  split at ha
  · rcases List.mem_append.mp ha with h | h
    · exact hall a h
    · exact spawnWaveAsteroids_active env diff (wave + 1) nextId ctr a h
  · exact hall a ha

theorem applyInputs_length (env : Env) (phys : PhysicsConfig)
    (diff : DifficultyConfig) (inputs : ℕ → InputState) (l : List Ship) :
    ∀ (i : ℕ) (nid : ℤ),
      (applyInputs env phys diff inputs l i nid).1.length = l.length := by
  induction l with
  | nil => intro i nid; rfl
  | cons s rest ih =>
      intro i nid
      simp [applyInputs, ih]

theorem applyPhysics_ships_length (env : Env) (fuel : ℕ)
    (phys : PhysicsConfig) (W H : ℚ) (pot : Option (Vec2 → Vec2))
    (ships : List Ship) (asteroids : List Asteroid) (bullets : List Bullet)
    (blackHoles : List BlackHole)
    (out : List Ship × List Asteroid × List Bullet × List BlackHole)
    (h : applyPhysics env fuel phys W H pot ships asteroids bullets
      blackHoles = some out) : out.1.length = ships.length := by
  unfold applyPhysics at h
  dsimp only at h
  split_ifs at h with hemp
  · rw [(Option.some_inj.mp h).symm]
  · cases hb1 : buildFuel fuel
        (activeBodies ships asteroids bullets blackHoles) W H with
    | none => rw [hb1] at h; exact absurd h (by simp)
    | some t1 =>
      rw [hb1, Option.some_bind] at h
      cases hb2 : buildFuel fuel (activeBodies
          (driftShips phys W H (kickShips env phys W H t1 pot ships))
          (driftAsteroids phys W H
            (kickAsteroids env phys W H t1 pot asteroids))
          (driftBullets phys W H (kickBullets env phys W H t1 pot bullets))
          (driftBHs phys W H (kickBHs env phys W H t1 pot blackHoles)))
          W H with
      | none => rw [hb2] at h; exact absurd h (by simp)
      | some t2 =>
        rw [hb2, Option.some_bind] at h
        rw [(Option.some_inj.mp h).symm]
        simp [kickShips, driftShips]

theorem resolvePair_ships_length (env : Env) (W H : ℚ) (st : HCState)
    (p : CPair) :
    (resolvePair env W H st p).ships.length = st.ships.length := by
  unfold resolvePair
  split
  · rfl
  split <;> (try rfl) <;> (repeat' split) <;>
    simp [List.length_set]

theorem handleCollisions_ships_length (env : Env) (W H : ℚ)
    (st : HCState) :
    (handleCollisions env W H st).ships.length = st.ships.length := by
  unfold handleCollisions
  generalize detectCollisions env.sq W H st.ships st.asteroids st.bullets
    st.blackHoles = l
  induction l generalizing st with
  | nil => rfl
  | cons p rest ih =>
      rw [List.foldl_cons, ih, resolvePair_ships_length]

/-- C7 (amended): after a completed step, every asteroid, bullet, black
hole and particle remaining in the state is active — those four vectors are
swept by cleanupInactive at the end of the tick (wave spawning only adds
active asteroids afterwards).  The ship vector is NOT swept: its length is
preserved and a ship marked inactive persists in it (see the
counterexample). -/
theorem step_sweep_invariant (env : Env) (fuel : ℕ) (st st' : EngState)
    (h : step env fuel st = some st') :
    (∀ a ∈ st'.asteroids, a.active = true) ∧
    (∀ b ∈ st'.bullets, b.active = true) ∧
    (∀ bh ∈ st'.blackHoles, bh.active = true) ∧
    (∀ p ∈ st'.particles, p.active = true) ∧
    st'.ships.length = st.ships.length := by
  unfold step at h
  dsimp only at h
  rw [Option.bind_eq_some] at h
  obtain ⟨ph, hph, h⟩ := h
  rw [(Option.some_inj.mp h).symm]
  refine ⟨?_, ?_, ?_, ?_, ?_⟩
  · exact checkWaveComplete_active _ _ _ _ _ _
      (fun a ha => (List.mem_filter.mp ha).2)
  · intro b hb
    exact (List.mem_filter.mp hb).2
  · intro bh hbh
    exact (List.mem_filter.mp hbh).2
  · intro p hp
    exact (List.mem_filter.mp hp).2
  · rw [handleCollisions_ships_length]
    show ph.1.length = _
    rw [applyPhysics_ships_length env fuel st.physics st.worldWidth
      st.worldHeight st.potential _ _ _ _ ph hph]
    rw [applyInputs_length]
    simp [updateEntities]

/-- A ship already marked inactive (e.g. destroyed on a previous tick with
zero lives). -/
def cexStepShip : Ship := { pos := (50, 50), active := false, lives := 0 }

/-- A quiescent active asteroid at the center of a 200 x 200 world. -/
def cexStepAst : Asteroid :=
  { pos := (100, 100), mass := 8000, radius := 40 }

/-- Engine state for the C7 counterexample: one inactive ship, one active
asteroid, nothing else, black holes disabled, no inputs, no potential. -/
def cexState : EngState :=
  { ships := [cexStepShip], asteroids := [cexStepAst], bullets := [],
    blackHoles := [], particles := [], worldWidth := 200,
    worldHeight := 200, time := 0, wave := 1, nextEntityId := 2,
    physics := {}, difficulty := { bhEnabled := false },
    inputs := fun _ => {}, potential := none, ctr := 0 }

/-- C7 (counterexample): the step completes, but the inactive ship is still
in the ship vector afterwards — cleanupInactive (engine.cpp) sweeps
asteroids, bullets, black holes and particles, never ships. -/
theorem step_ships_not_swept_counterexample :
    step testEnv 1 cexState = some { cexState with time := 1/120 } ∧
    ({ cexState with time := 1/120 } : EngState).ships = [cexStepShip] ∧
    cexStepShip.active = false := by
  have hwp : wrapPosition ((100 : ℚ), (100 : ℚ)) 200 200 = (100, 100) := by
    unfold wrapPosition
    simp only
    rw [wrapCoord_id 100 200 (by norm_num) (by norm_num) (by norm_num)]
  refine ⟨?_, rfl, rfl⟩
  norm_num [step, updateEntities, applyInputs, applyInputShip, bulletInit,
    applyPhysics, activeBodies,
    buildFuel, insertB, kickShips, kickAsteroids, kickBullets, kickBHs,
    driftShips, driftAsteroids, driftBullets, driftBHs, kickAcc, calcAcc,
    handleCollisions, detectCollisions, shipAstPass, shipShipPass,
    astAstPass, bulletAstPass, bhPass, checkCollision, accDist,
    getMinimumImagePos, asteroidUpdate, shipUpdate, bulletUpdate,
    particleUpdate, checkWaveComplete, spawnWaveAsteroids, spawnBlackHole,
    testEnv, cexState, cexStepShip, cexStepAst, vmul, vdiv, lengthSq,
    minimumImage, List.enum, List.enumFrom, Prod.ext_iff, hwp,
    sweepOffscreenBHs]

/-- C7 witness: the sweep invariant applied to the concrete one-ship,
one-asteroid state. -/
theorem step_sweep_invariant_witness :
    (∀ a ∈ ({ cexState with time := 1/120 } : EngState).asteroids,
      a.active = true) ∧
    (∀ b ∈ ({ cexState with time := 1/120 } : EngState).bullets,
      b.active = true) ∧
    (∀ bh ∈ ({ cexState with time := 1/120 } : EngState).blackHoles,
      bh.active = true) ∧
    (∀ p ∈ ({ cexState with time := 1/120 } : EngState).particles,
      p.active = true) ∧
    ({ cexState with time := 1/120 } : EngState).ships.length =
      cexState.ships.length :=
  step_sweep_invariant testEnv 1 cexState { cexState with time := 1/120 }
    (by
      have hwp : wrapPosition ((100 : ℚ), (100 : ℚ)) 200 200 = (100, 100) := by
        unfold wrapPosition
        simp only
        rw [wrapCoord_id 100 200 (by norm_num) (by norm_num) (by norm_num)]
      norm_num [step, updateEntities, applyInputs, applyInputShip,
        bulletInit, applyPhysics, activeBodies, buildFuel, insertB,
        kickShips, kickAsteroids, kickBullets, kickBHs, driftShips,
        driftAsteroids, driftBullets, driftBHs, kickAcc, calcAcc,
        handleCollisions, detectCollisions, shipAstPass, shipShipPass,
        astAstPass, bulletAstPass, bhPass, checkCollision, accDist,
        getMinimumImagePos, asteroidUpdate, shipUpdate, bulletUpdate,
        particleUpdate, checkWaveComplete, spawnWaveAsteroids,
        spawnBlackHole, testEnv, cexState, cexStepShip, cexStepAst, vmul,
        vdiv, lengthSq, minimumImage, List.enum, List.enumFrom,
        Prod.ext_iff, hwp, sweepOffscreenBHs])

end NBody
